import Mathlib

/-!
Verification of the iconfig (mac-sync-wizard) configuration-synchronization
tool, shallowly embedded from src/iconfig.py.

Part 1: the JSON configuration model.  Python dictionaries are modelled as
association lists with unique keys (`List (String × J)`); `deep_update`
(src/iconfig.py lines 341-347) is modelled both as a pure merge
(`deepUpdate`, the value computed when the defaults are pristine) and, for
the aliasing behaviour of `load_config` (lines 323-339), as an operation on
an explicit heap of Python dict objects further below.
-/

namespace IConfig

/-- JSON values as produced by json.load. -/
inductive J where
  | str : String → J
  | num : Int → J
  | bool : Bool → J
  | null : J
  | arr : List J → J
  | obj : List (String × J) → J

/-- Python dict lookup (keys are unique in a Python dict). -/
def lookupJ : List (String × J) → String → Option J
  | [], _ => none
  | (k, v) :: rest, k2 => if k = k2 then some v else lookupJ rest k2

/-- Python dict assignment d[k] = v: replaces in place when the key is
present (keeping its position), appends otherwise. -/
def setKey : List (String × J) → String → J → List (String × J)
  | [], k, v => [(k, v)]
  | (k1, v1) :: rest, k, v =>
    if k1 = k then (k, v) :: rest else (k1, v1) :: setKey rest k v

mutual

/-- Pure rendering of deep_update (src/iconfig.py lines 341-347): folds the
update dictionary u into d, item by item, in order. -/
def deepUpdate : List (String × J) → List (String × J) → List (String × J)
  | d, [] => d
  | d, (k, v) :: rest => deepUpdate (deepUpdateKey d k v) rest

/-- One iteration of the deep_update loop for key k and value v: when both
the new value and the present value are dicts the update recurses, otherwise
the new value overwrites (d[k] = v). -/
def deepUpdateKey (d : List (String × J)) (k : String) : J → List (String × J)
  | J.obj uf =>
    match lookupJ d k with
    | some (J.obj df) => setKey d k (J.obj (deepUpdate df uf))
    | _ => setKey d k (J.obj uf)
  | v => setKey d k v

end

/-- Keys of an association list are pairwise distinct (Python dict invariant). -/
def keysDistinct : List (String × J) → Bool
  | [] => true
  | (k, _) :: rest => !(rest.any (fun p => p.1 = k)) && keysDistinct rest

mutual

/-- Well-formedness of a JSON value: at every level of every object the keys
are distinct, as is the case for any value produced by json.load. -/
def wfJ : J → Bool
  | J.obj fs => keysDistinct fs && wfFields fs
  | J.arr xs => wfArr xs
  | _ => true

def wfFields : List (String × J) → Bool
  | [] => true
  | (_, v) :: rest => wfJ v && wfFields rest

def wfArr : List J → Bool
  | [] => true
  | v :: rest => wfJ v && wfArr rest

end

/-- Lookup along a path of keys, descending through nested objects. -/
def getPath : J → List String → Option J
  | j, [] => some j
  | J.obj fs, k :: p =>
    match lookupJ fs k with
    | some v => getPath v p
    | none => none
  | _, _ :: _ => none

/-- Whether a JSON value is an object (isinstance(v, dict)). -/
def isObjJ : J → Bool
  | J.obj _ => true
  | _ => false

end IConfig

namespace IConfig

/-- The value that deep_update leaves at key k after processing the item
(k, v): a recursive merge when both sides are dicts, v itself otherwise. -/
def mergedValue (d : List (String × J)) (k : String) : J → J
  | J.obj uf =>
    match lookupJ d k with
    | some (J.obj df) => J.obj (deepUpdate df uf)
    | _ => J.obj uf
  | v => v

theorem lookupJ_setKey_self (d : List (String × J)) (k : String) (v : J) :
    lookupJ (setKey d k v) k = some v := by
  induction d with
  | nil => simp [setKey, lookupJ]
  | cons hd tl ih =>
    obtain ⟨k1, v1⟩ := hd
    by_cases h : k1 = k
    · simp [setKey, h, lookupJ]
    · simp [setKey, h, lookupJ, ih]

theorem lookupJ_setKey_ne (d : List (String × J)) (k k2 : String) (v : J)
    (h : k ≠ k2) : lookupJ (setKey d k v) k2 = lookupJ d k2 := by
  induction d with
  | nil => simp [setKey, lookupJ, h]
  | cons hd tl ih =>
    obtain ⟨k1, v1⟩ := hd
    by_cases h1 : k1 = k
    · subst h1; simp [setKey, lookupJ, h]
    · simp [setKey, h1, lookupJ, ih]

theorem lookupJ_deepUpdateKey (d : List (String × J)) (k k2 : String) (v : J) :
    lookupJ (deepUpdateKey d k v) k2 =
      if k = k2 then some (mergedValue d k v) else lookupJ d k2 := by
  by_cases h : k = k2
  · subst h
    cases v with
    | obj uf =>
      simp only [deepUpdateKey, mergedValue]
      cases hv : lookupJ d k with
      | none => simp [lookupJ_setKey_self]
      | some w => cases w <;> simp [lookupJ_setKey_self]
    | str s => simp [deepUpdateKey, mergedValue, lookupJ_setKey_self]
    | num n => simp [deepUpdateKey, mergedValue, lookupJ_setKey_self]
    | bool b => simp [deepUpdateKey, mergedValue, lookupJ_setKey_self]
    | null => simp [deepUpdateKey, mergedValue, lookupJ_setKey_self]
    | arr xs => simp [deepUpdateKey, mergedValue, lookupJ_setKey_self]
  · cases v with
    | obj uf =>
      simp only [deepUpdateKey, h, if_false]
      cases hv : lookupJ d k with
      | none => simp [lookupJ_setKey_ne _ _ _ _ h, h]
      | some w => cases w <;> simp [lookupJ_setKey_ne _ _ _ _ h, h]
    | str s => simp [deepUpdateKey, lookupJ_setKey_ne _ _ _ _ h, h]
    | num n => simp [deepUpdateKey, lookupJ_setKey_ne _ _ _ _ h, h]
    | bool b => simp [deepUpdateKey, lookupJ_setKey_ne _ _ _ _ h, h]
    | null => simp [deepUpdateKey, lookupJ_setKey_ne _ _ _ _ h, h]
    | arr xs => simp [deepUpdateKey, lookupJ_setKey_ne _ _ _ _ h, h]

theorem mergedValue_congr (d1 d : List (String × J)) (k : String) (v : J)
    (h : lookupJ d1 k = lookupJ d k) : mergedValue d1 k v = mergedValue d k v := by
  cases v <;> simp [mergedValue, h]

theorem lookupJ_none_of_not_any (u : List (String × J)) (k : String)
    (h : u.any (fun p => p.1 = k) = false) : lookupJ u k = none := by
  induction u with
  | nil => rfl
  | cons hd tl ih =>
    obtain ⟨k1, v1⟩ := hd
    simp only [List.any_cons, Bool.or_eq_false_iff] at h
    have hk : k1 ≠ k := by
      intro he; rw [he] at h; simp at h
    simp [lookupJ, hk, ih h.2]

theorem lookupJ_deepUpdate (u : List (String × J)) :
    keysDistinct u = true → ∀ (d : List (String × J)) (k : String),
      lookupJ (deepUpdate d u) k =
        match lookupJ u k with
        | none => lookupJ d k
        | some v => some (mergedValue d k v) := by
  induction u with
  | nil => intro _ d k; simp [deepUpdate, lookupJ]
  | cons hd tl ih =>
    intro hdist d k
    obtain ⟨k0, v0⟩ := hd
    simp only [keysDistinct, Bool.and_eq_true, Bool.not_eq_true'] at hdist
    have step : deepUpdate d ((k0, v0) :: tl) = deepUpdate (deepUpdateKey d k0 v0) tl := rfl
    rw [step, ih hdist.2]
    by_cases h : k0 = k
    · subst h
      have : lookupJ tl k0 = none := lookupJ_none_of_not_any _ _ hdist.1
      simp [lookupJ, this, lookupJ_deepUpdateKey]
    · cases hv : lookupJ tl k with
      | none =>
        simp [lookupJ, h, hv, lookupJ_deepUpdateKey]
      | some v =>
        have hl : lookupJ (deepUpdateKey d k0 v0) k = lookupJ d k := by
          rw [lookupJ_deepUpdateKey]; simp [h]
        simp [lookupJ, h, hv, mergedValue_congr _ _ _ _ hl]

theorem wfJ_obj_elim (u : List (String × J)) (h : wfJ (J.obj u) = true) :
    keysDistinct u = true ∧ wfFields u = true := by
  simpa [wfJ, Bool.and_eq_true] using h

theorem wfJ_of_lookup (u : List (String × J)) (k : String) (w : J)
    (hwf : wfFields u = true) (h : lookupJ u k = some w) : wfJ w = true := by
  induction u with
  | nil => simp [lookupJ] at h
  | cons hd tl ih =>
    obtain ⟨k1, v1⟩ := hd
    simp only [wfFields, Bool.and_eq_true] at hwf
    by_cases hk : k1 = k
    · simp [lookupJ, hk] at h; rw [← h]; exact hwf.1
    · simp [lookupJ, hk] at h; exact ih hwf.2 h

theorem getPath_deepUpdate_leaf (p : List String) :
    ∀ (u d : List (String × J)) (v : J),
      wfJ (J.obj u) = true → getPath (J.obj u) p = some v → isObjJ v = false →
      getPath (J.obj (deepUpdate d u)) p = some v := by
  induction p with
  | nil =>
    intro u d v _ hget hobj
    simp [getPath] at hget
    rw [← hget] at hobj
    simp [isObjJ] at hobj
  | cons k rest ih =>
    intro u d v hwf hget hobj
    obtain ⟨hdist, hfields⟩ := wfJ_obj_elim u hwf
    simp only [getPath] at hget
    cases hu : lookupJ u k with
    | none => rw [hu] at hget; simp at hget
    | some w =>
      rw [hu] at hget
      simp only [getPath]
      rw [lookupJ_deepUpdate u hdist d k, hu]
      cases w with
      | obj wf =>
        simp only [mergedValue]
        cases hd : lookupJ d k with
        | none =>
          simp only []
          exact hget
        | some dv =>
          cases dv with
          | obj df =>
            simp only []
            exact ih wf df v (wfJ_of_lookup u k _ hfields hu) hget hobj
          | str s => exact hget
          | num n => exact hget
          | bool b => exact hget
          | null => exact hget
          | arr xs => exact hget
      | str s => exact hget
      | num n => exact hget
      | bool b => exact hget
      | null => exact hget
      | arr xs => exact hget

end IConfig

namespace IConfig

/-- UTILITY_CONFIGS (src/iconfig.py lines 163-301): the compiled-in default
utility settings. -/
def utilityConfigsJ : List (String × J) :=
  [ ("cursor", J.obj
      [ ("enabled", J.bool true),
        ("paths", J.arr
          [ J.str "~/Library/Application Support/Cursor/User/keybindings.json",
            J.str "~/Library/Application Support/Cursor/User/settings.json",
            J.str "~/Library/Application Support/Cursor/User/extensions/" ]),
        ("exclude_patterns", J.arr [J.str "*.log", J.str "Cache/*"]) ]),
    ("pycharm", J.obj
      [ ("enabled", J.bool true),
        ("paths", J.arr
          [ J.str "~/Library/Application Support/JetBrains/PyCharm*/options/",
            J.str "~/Library/Application Support/JetBrains/PyCharm*/keymaps/",
            J.str "~/Library/Application Support/JetBrains/PyCharm*/codestyles/",
            J.str "~/Library/Application Support/JetBrains/PyCharm*/templates/",
            J.str "~/Library/Application Support/JetBrains/PyCharm*/colors/",
            J.str "~/Library/Application Support/JetBrains/PyCharm*/fileTemplates/",
            J.str "~/Library/Application Support/JetBrains/PyCharm*/inspection/",
            J.str "~/Library/Application Support/JetBrains/PyCharm*/tools/",
            J.str "~/Library/Application Support/JetBrains/PyCharm*/shelf/" ]),
        ("exclude_patterns", J.arr
          [ J.str "*.log", J.str "Cache/*", J.str "workspace/", J.str "tasks/",
            J.str "scratches/", J.str "jdbc-drivers/", J.str "ssl/", J.str "port",
            J.str "plugins/updatedPlugins.xml", J.str "marketplace/", J.str "*.hprof",
            J.str "*.snapshot", J.str "eval/", J.str "repair/", J.str "*/.DS_Store" ]) ]),
    ("sublime", J.obj
      [ ("enabled", J.bool true),
        ("paths", J.arr [J.str "~/Library/Application Support/Sublime Text/Packages/User/"]),
        ("exclude_patterns", J.arr [J.str "*.log", J.str "Cache/*"]) ]),
    ("trackpad", J.obj
      [ ("enabled", J.bool true),
        ("paths", J.arr
          [ J.str "~/Library/Preferences/com.apple.driver.AppleBluetoothMultitouch.trackpad.plist",
            J.str "~/Library/Preferences/com.apple.AppleMultitouchTrackpad.plist" ]),
        ("exclude_patterns", J.arr []) ]),
    ("git", J.obj
      [ ("enabled", J.bool true),
        ("paths", J.arr [J.str "~/.gitconfig", J.str "~/.config/git/"]),
        ("exclude_patterns", J.arr []) ]),
    ("warp", J.obj
      [ ("enabled", J.bool true),
        ("paths", J.arr
          [ J.str "~/.warp/themes/", J.str "~/.warp/launch_configurations/",
            J.str "~/.warp/user_scripts/", J.str "~/.warp/settings.yaml",
            J.str "~/.warp/keybindings.json" ]),
        ("exclude_patterns", J.arr
          [ J.str "Cache/*", J.str "*.log", J.str "*.pyc", J.str "__pycache__",
            J.str "*.sock", J.str "*.pid" ]) ]),
    ("fonts", J.obj
      [ ("enabled", J.bool true),
        ("paths", J.arr [J.str "~/Library/Fonts/"]),
        ("exclude_patterns", J.arr []),
        ("include_patterns", J.arr []),
        ("custom_fonts", J.arr []) ]),
    ("anki", J.obj
      [ ("enabled", J.bool true),
        ("paths", J.arr
          [ J.str "~/Library/Application Support/Anki2/addons21/",
            J.str "~/Library/Application Support/Anki2/prefs21.db" ]),
        ("exclude_patterns", J.arr [J.str "*.log"]) ]),
    ("stretchly", J.obj
      [ ("enabled", J.bool true),
        ("paths", J.arr [J.str "~/Library/Application Support/stretchly/"]),
        ("exclude_patterns", J.arr [J.str "*.log"]) ]),
    ("maccy", J.obj
      [ ("enabled", J.bool true),
        ("paths", J.arr
          [J.str "~/Library/Containers/org.p0deje.Maccy/Data/Library/Preferences/org.p0deje.Maccy.plist"]),
        ("exclude_patterns", J.arr []) ]),
    ("shell", J.obj
      [ ("enabled", J.bool true),
        ("paths", J.arr [J.str "~/.iconfig/shell/"]),
        ("exclude_patterns", J.arr []),
        ("description", J.str "Shell aliases, functions, and custom configurations"),
        ("setup_on_enable", J.bool true) ]),
    ("arc", J.obj
      [ ("enabled", J.bool false),
        ("paths", J.arr
          [ J.str "~/Library/Application Support/Arc/",
            J.str "~/Library/Preferences/company.thebrowser.Arc.plist" ]),
        ("exclude_patterns", J.arr [J.str "Cache/*", J.str "*.log"]) ]),
    ("logi", J.obj
      [ ("enabled", J.bool false),
        ("paths", J.arr
          [ J.str "~/Library/Preferences/com.logi.optionsplus.plist",
            J.str "~/Library/Application Support/LogiOptionsPlus/config.json",
            J.str "~/Library/Application Support/LogiOptionsPlus/settings.db",
            J.str "~/Library/Application Support/LogiOptionsPlus/macros.db",
            J.str "~/Library/Application Support/LogiOptionsPlus/permissions.json",
            J.str "~/Library/Application Support/LogiOptionsPlus/cc_config.json" ]),
        ("exclude_patterns", J.arr []) ]),
    ("1password", J.obj
      [ ("enabled", J.bool false),
        ("paths", J.arr
          [ J.str "~/Library/Application Support/1Password/",
            J.str "~/Library/Preferences/com.1password.1password.plist" ]),
        ("exclude_patterns", J.arr [J.str "*.log", J.str "Cache/*"]) ]) ]

/-- DEFAULT_CONFIG (src/iconfig.py lines 304-321). -/
def defaultConfigFields : List (String × J) :=
  [ ("repository", J.obj
      [ ("url", J.str ""),
        ("branch", J.str "main"),
        ("auth_type", J.str "ssh") ]),
    ("sync", J.obj
      [ ("frequency", J.num 21600),
        ("auto_commit", J.bool true),
        ("commit_message_template", J.str "Auto-sync: \x7bdate\x7d - \x7bchanges\x7d"),
        ("pull_strategy", J.str "rebase") ]),
    ("notifications", J.obj
      [ ("level", J.str "errors_only"),
        ("method", J.str "terminal-notifier") ]),
    ("utilities", J.obj utilityConfigsJ) ]

/-- The configuration value load_config (src/iconfig.py lines 323-339)
returns for a stored file when the defaults are pristine: the stored JSON
object deep-merged onto DEFAULT_CONFIG. -/
def loadConfigPure (stored : List (String × J)) : List (String × J) :=
  deepUpdate defaultConfigFields stored

/-- C4: for every stored configuration JSON object, the configuration
load_config returns (merging the stored file onto the compiled-in defaults
via deep_update) contains every top-level key of DEFAULT_CONFIG, preserves
every key of the stored file (so keys unknown to the defaults survive), and
gives the stored file's values precedence at every nesting level: any
non-object value the stored file holds at any key path is the value of the
merged configuration at that path. -/
theorem c4_load_config_merge (stored : List (String × J))
    (hwf : wfJ (J.obj stored) = true) :
    (∀ k, (lookupJ defaultConfigFields k).isSome →
      (lookupJ (loadConfigPure stored) k).isSome)
    ∧ (∀ k, (lookupJ stored k).isSome → (lookupJ (loadConfigPure stored) k).isSome)
    ∧ (∀ p v, getPath (J.obj stored) p = some v → isObjJ v = false →
        getPath (J.obj (loadConfigPure stored)) p = some v) := by
  obtain ⟨hdist, _⟩ := wfJ_obj_elim stored hwf
  refine ⟨?_, ?_, ?_⟩
  · intro k hk
    rw [loadConfigPure, lookupJ_deepUpdate stored hdist defaultConfigFields k]
    cases hu : lookupJ stored k with
    | none => simpa using hk
    | some v => simp
  · intro k hk
    rw [loadConfigPure, lookupJ_deepUpdate stored hdist defaultConfigFields k]
    cases hu : lookupJ stored k with
    | none => simp [hu] at hk
    | some v => simp
  · intro p v hget hobj
    exact getPath_deepUpdate_leaf p stored defaultConfigFields v hwf hget hobj

/-- Witness for C4 at a concrete stored configuration that is missing most
default keys, overrides a nested value and carries a key unknown to the
defaults. -/
theorem c4_load_config_merge_witness :
    wfJ (J.obj [("sync", J.obj [("frequency", J.num 60)]), ("mykey", J.str "x")]) = true
    ∧ getPath (J.obj (loadConfigPure
        [("sync", J.obj [("frequency", J.num 60)]), ("mykey", J.str "x")]))
        ["sync", "frequency"] = some (J.num 60) :=
  ⟨by decide,
   (c4_load_config_merge
      [("sync", J.obj [("frequency", J.num 60)]), ("mykey", J.str "x")]
      (by decide)).2.2 ["sync", "frequency"] (J.num 60) rfl rfl⟩

end IConfig

namespace IConfig

/-- A value stored in a Python dict slot: either an immutable (non-dict)
value or a reference to a dict object on the heap.  Lists are treated as
immutable values; deep_update never mutates a list in place. -/
inductive HVal where
  | prim : J → HVal
  | ref : Nat → HVal

/-- The Python heap restricted to dict objects: address to field list.
Updated entries are prepended; lookup takes the most recent. -/
abbrev Heap := List (Nat × List (String × HVal))

/-- Heap plus the next fresh address. -/
structure HState where
  heap : Heap
  next : Nat

def heapGet : Heap → Nat → Option (List (String × HVal))
  | [], _ => none
  | (a, fs) :: rest, b => if a = b then some fs else heapGet rest b

def heapSet (h : Heap) (a : Nat) (fs : List (String × HVal)) : Heap :=
  (a, fs) :: h

def lookupH : List (String × HVal) → String → Option HVal
  | [], _ => none
  | (k, v) :: rest, k2 => if k = k2 then some v else lookupH rest k2

/-- Python dict assignment on heap field lists. -/
def setKeyH : List (String × HVal) → String → HVal → List (String × HVal)
  | [], k, v => [(k, v)]
  | (k1, v1) :: rest, k, v =>
    if k1 = k then (k, v) :: rest else (k1, v1) :: setKeyH rest k v

mutual

/-- Allocate a fresh heap object for a JSON value: every object (dict)
becomes a new heap cell, as json.load produces fresh unaliased dicts. -/
def allocJ : J → HState → HVal × HState
  | J.obj fs, st =>
    let r := allocFields fs st
    (HVal.ref r.2.next, ⟨heapSet r.2.heap r.2.next r.1, r.2.next + 1⟩)
  | v, st => (HVal.prim v, st)

def allocFields : List (String × J) → HState → List (String × HVal) × HState
  | [], st => ([], st)
  | (k, v) :: rest, st =>
    let rv := allocJ v st
    let rr := allocFields rest rv.2
    ((k, rv.1) :: rr.1, rr.2)

end

def setField (st : HState) (a : Nat) (k : String) (hv : HVal) : HState :=
  match heapGet st.heap a with
  | some fields => ⟨heapSet st.heap a (setKeyH fields k hv), st.next⟩
  | none => st

mutual

/-- deep_update (src/iconfig.py lines 341-347) acting on a heap dict at
address a, mutating shared nested dicts in place. -/
def deepUpdateH : HState → Nat → List (String × J) → HState
  | st, _, [] => st
  | st, a, (k, v) :: rest => deepUpdateH (deepUpdateKeyH st a k v) a rest

/-- One loop iteration of deep_update on the heap: when the new value and
the present slot are both dicts, recurse into the shared heap object
(mutating it in place); otherwise assign, allocating fresh objects for any
dict value from the parsed file. -/
def deepUpdateKeyH : HState → Nat → String → J → HState
  | st, a, k, J.obj uf =>
    match heapGet st.heap a with
    | some fields =>
      match lookupH fields k with
      | some (HVal.ref b) => deepUpdateH st b uf
      | _ =>
        let r := allocJ (J.obj uf) st
        setField r.2 a k r.1
    | none => st
  | st, a, k, v => setField st a k (HVal.prim v)

end

/-- load_config (src/iconfig.py lines 323-339) on the heap:
merged_config = DEFAULT_CONFIG.copy() is a SHALLOW copy (a fresh top-level
dict sharing every nested dict with DEFAULT_CONFIG), after which
deep_update(merged_config, stored) runs.  Returns the merged dict's
address. -/
def loadConfigHeap (stored : List (String × J)) (st : HState)
    (defaultA : Nat) : Nat × HState :=
  match heapGet st.heap defaultA with
  | some fields =>
    let a := st.next
    let st1 : HState := ⟨heapSet st.heap a fields, a + 1⟩
    (a, deepUpdateH st1 a stored)
  | none => (0, st)

/-- Follow a key path through the heap, with fuel for termination. -/
def derefPath (st : HState) : Nat → HVal → List String → Option HVal
  | 0, _, _ => none
  | _ + 1, hv, [] => some hv
  | fuel + 1, HVal.ref a, k :: p =>
    match heapGet st.heap a with
    | some fields =>
      match lookupH fields k with
      | some hv => derefPath st fuel hv p
      | none => none
    | none => none
  | _ + 1, HVal.prim _, _ :: _ => none

/-- Read the non-dict value at a key path in the heap. -/
def readLeaf (st : HState) (hv : HVal) (p : List String) : Option J :=
  match derefPath st 20 hv p with
  | some (HVal.prim v) => some v
  | _ => none

/-- The module-level DEFAULT_CONFIG dict allocated on an empty heap at
process start. -/
def initAlloc : HVal × HState := allocJ (J.obj defaultConfigFields) ⟨[], 0⟩

def hstate0 : HState := initAlloc.2

def defaultAddr : Nat :=
  match initAlloc.1 with
  | HVal.ref a => a
  | HVal.prim _ => 0

end IConfig

namespace IConfig

/-- C9: load_config copies DEFAULT_CONFIG only shallowly before merging.
Loading a stored file that overrides sync.frequency mutates the nested
dict of the module-level DEFAULT_CONFIG in place (its sync.frequency comes
to hold the stored value 1 instead of 21600), and a later load_config call
on the empty stored object returns sync.frequency 1, different from the
result of merging that same input into pristine defaults (21600). -/
theorem c9_default_config_mutated :
    readLeaf hstate0 (HVal.ref defaultAddr) ["sync", "frequency"]
      = some (J.num 21600)
    ∧ readLeaf ((loadConfigHeap [("sync", J.obj [("frequency", J.num 1)])]
        hstate0 defaultAddr).2) (HVal.ref defaultAddr) ["sync", "frequency"]
      = some (J.num 1)
    ∧ readLeaf (loadConfigHeap []
        ((loadConfigHeap [("sync", J.obj [("frequency", J.num 1)])]
          hstate0 defaultAddr).2) defaultAddr).2
        (HVal.ref (loadConfigHeap []
        ((loadConfigHeap [("sync", J.obj [("frequency", J.num 1)])]
          hstate0 defaultAddr).2) defaultAddr).1) ["sync", "frequency"]
      = some (J.num 1)
    ∧ getPath (J.obj (loadConfigPure [])) ["sync", "frequency"]
      = some (J.num 21600)
    ∧ (J.num 1 : J) ≠ J.num 21600 := by
  refine ⟨rfl, rfl, rfl, rfl, ?_⟩
  intro h
  cases h

end IConfig

namespace IConfig

/-!
Part 2: filesystem, subprocess and trace model for the effectful functions.

Paths are component lists (os.path.join appends a component,
os.path.dirname drops the last one).  The filesystem is a list of
(path, node) entries where later writes are prepended and lookup takes the
first match.  Every subprocess invocation and log/print line is recorded in
an event trace; the outcome of external commands is supplied by an
environment.  Effects external commands have on the filesystem (git, rsync)
are outside the model; no claim depends on them, and the trace records
which commands were issued.
-/

abbrev Path := List String

inductive Node where
  | dir : Node
  | file : String → Node
deriving DecidableEq

abbrev FS := List (Path × Node)

def fsGet : FS → Path → Option Node
  | [], _ => none
  | (p, n) :: rest, q => if p = q then some n else fsGet rest q

def fsSet (fs : FS) (p : Path) (n : Node) : FS := (p, n) :: fs

def pathExists (fs : FS) (p : Path) : Bool := (fsGet fs p).isSome

def isDirFS (fs : FS) (p : Path) : Bool :=
  match fsGet fs p with
  | some Node.dir => true
  | _ => false

def isFileFS (fs : FS) (p : Path) : Bool :=
  match fsGet fs p with
  | some (Node.file _) => true
  | _ => false

/-- Content of a file (empty for a missing path or a directory). -/
def fileContent (fs : FS) (p : Path) : String :=
  match fsGet fs p with
  | some (Node.file c) => c
  | _ => ""

/-- os.remove. -/
def fsRemove (fs : FS) (p : Path) : FS := fs.filter (fun e => e.1 ≠ p)

/-- shutil.rmtree: removes the path and everything below it. -/
def fsRemoveTree (fs : FS) (p : Path) : FS :=
  fs.filter (fun e => ¬ p.isPrefixOf e.1)

/-- os.makedirs(p, exist_ok=True): creates every missing ancestor of p and
p itself as directories. -/
def makedirs (fs : FS) (p : Path) : FS :=
  (List.range (p.length + 1)).foldl
    (fun acc i =>
      let pre := p.take i
      if pathExists acc pre then acc else fsSet acc pre Node.dir)
    fs

/-- Last path component (os.path.basename). -/
def lastComponent (p : Path) : String := p.getLast?.getD ""

/-- shutil.copy2(src, dst): when dst is a directory the file lands at
dst/basename(src), otherwise at dst itself.  Metadata is not modelled. -/
def copy2 (fs : FS) (src dst : Path) : FS :=
  if isDirFS fs dst then
    fsSet fs (dst ++ [lastComponent src]) (Node.file (fileContent fs src))
  else
    fsSet fs dst (Node.file (fileContent fs src))

/-- Entries at or below a path. -/
def entriesUnder (fs : FS) (src : Path) : FS :=
  fs.filter (fun e => src.isPrefixOf e.1)

/-- shutil.copytree(src, dst): every entry at or below src is replicated at
the corresponding path below dst (call sites guarantee dst does not
exist). -/
def copytree (fs : FS) (src dst : Path) : FS :=
  ((entriesUnder fs src).map (fun e => (dst ++ e.1.drop src.length, e.2))) ++ fs

/-- os.listdir: names of the immediate children present in the
filesystem. -/
def listdirFS (fs : FS) (d : Path) : List String :=
  (fs.filterMap (fun e => if e.1.dropLast = d then e.1.getLast? else none)).eraseDups

/-- os.path.getsize. -/
def getsizeFS (fs : FS) (p : Path) : Nat := (fileContent fs p).length

inductive Ev where
  | cmd : List String → Ev
  | log : String → Ev
deriving DecidableEq

/-- Process state: the filesystem plus the trace of issued subprocess
commands and emitted log/print lines. -/
structure St where
  fs : FS
  trace : List Ev

def emitLog (s : St) (m : String) : St := { s with trace := s.trace ++ [Ev.log m] }

def emitCmd (s : St) (c : List String) : St := { s with trace := s.trace ++ [Ev.cmd c] }

/-- External environment: subprocess outcomes (exit code, stdout, stderr),
free disk space, DNS reachability and the current time in the two formats
the source uses. -/
structure Env where
  run : List String → Int × String × String
  diskFreeMB : Nat
  dnsOk : Bool
  now : String
  nowStamp : String

/-- run_command (src/iconfig.py lines 410-433). -/
def runCommand (env : Env) (args : List String) (check : Bool) (s : St) :
    (Int × String × String) × St :=
  let r := env.run args
  let s1 := emitCmd s args
  if check ∧ r.1 ≠ 0 then
    (r, emitLog (emitLog (emitLog (emitLog s1
      ("Command failed: " ++ String.intercalate " " args))
      "Exit code") ("Stdout: " ++ r.2.1)) ("Stderr: " ++ r.2.2))
  else (r, s1)

/-- command_exists (src/iconfig.py lines 435-438). -/
def commandExists (env : Env) (c : String) (s : St) : Bool × St :=
  let r := runCommand env ["which", c] false s
  (r.1.1 = 0, r.2)

def HOME_DIR : Path := ["HOME"]
def APP_DIR : Path := HOME_DIR ++ [".mac-sync-wizard"]
def REPO_DIR : Path := APP_DIR ++ ["repo"]
def LOCK_FILE : Path := APP_DIR ++ ["sync.lock"]
def LAST_SYNC_FILE : Path := APP_DIR ++ ["last_sync"]

/-- os.path.expanduser. -/
def expanduser : Path → Path
  | "~" :: rest => HOME_DIR ++ rest
  | p => p

def pathStr (p : Path) : String := String.intercalate "/" p

/-- Python str.strip(): drop whitespace from both ends. -/
def stripStr (s : String) : String :=
  String.mk (((s.data.dropWhile Char.isWhitespace).reverse.dropWhile
    Char.isWhitespace).reverse)

/-- Substring test (the Python `in` operator on strings). -/
def containsSub (needle hay : String) : Bool :=
  hay.data.tails.any (fun t => needle.data.isPrefixOf t)

/-- Python str.lower(). -/
def lowerStr (s : String) : String := String.mk (s.data.map Char.toLower)

/-- The conflict test of pull_changes (src/iconfig.py line 1271). -/
def conflictIn (stderr : String) : Bool :=
  containsSub "CONFLICT" stderr || containsSub "conflict" (lowerStr stderr)

end IConfig

namespace IConfig

/-- Tail of pull_changes from the stash-pop on (src/iconfig.py lines
1292-1302): restore stashed changes if any (a failed pop is only a
warning) and report success. -/
def pullFinish (env : Env) (stashed : Bool) (s : St) : Bool × St :=
  if stashed then
    let s := emitLog s "Restoring stashed changes..."
    let r := runCommand env ["git", "stash", "pop"] false s
    let s := r.2
    let s :=
      if r.1.1 ≠ 0 then
        emitLog (emitLog (emitLog s
          ("Failed to pop stashed changes: " ++ r.1.2.2))
          "WARNING: Failed to restore stashed changes automatically.")
          "Your changes are still saved. You can restore them manually with: cd ~/.mac-sync-wizard/repo && git stash pop"
      else s
    (true, emitLog s "Changes pulled successfully")
  else
    (true, emitLog s "Changes pulled successfully")

/-- Body of pull_changes after the stash decision (src/iconfig.py lines
1255-1302): fetch, pull with the chosen strategy, fall back from a
conflicted rebase to a plain merge pull, then pop any stash. -/
def pullChangesRest (env : Env) (branch : String) (useRebase stashed : Bool)
    (s : St) : Bool × St :=
  let fe := runCommand env ["git", "fetch", "origin"] false s
  let s := fe.2
  if fe.1.1 ≠ 0 then
    (false, emitLog (emitLog s ("Failed to fetch from origin: " ++ fe.1.2.2))
      ("ERROR: Failed to fetch from remote: " ++ fe.1.2.2))
  else
    let pullArgs := ["git", "pull"] ++ (if useRebase then ["--rebase"] else [])
      ++ ["origin", branch]
    let pr := runCommand env pullArgs false s
    let s := pr.2
    if pr.1.1 ≠ 0 then
      if conflictIn pr.1.2.2 then
        let s := emitLog s "Merge conflicts detected during rebase"
        let s := emitLog s "ERROR: Conflicts detected during pull. Attempting to abort rebase..."
        let ab := runCommand env ["git", "rebase", "--abort"] false s
        let s := ab.2
        let s := emitLog s "WARNING: Falling back to regular merge strategy..."
        let mr := runCommand env ["git", "pull", "origin", branch] false s
        let s := mr.2
        if mr.1.1 ≠ 0 then
          (false, emitLog (emitLog (emitLog s
            ("Failed to pull changes even with merge strategy: " ++ mr.1.2.2))
            "ERROR: Failed to pull changes. Your repository may have conflicts that need manual resolution.")
            "You can try resolving this manually with: cd ~/.mac-sync-wizard/repo && git pull")
        else
          pullFinish env stashed s
      else
        (false, emitLog (emitLog s ("Failed to pull changes: " ++ pr.1.2.2))
          ("ERROR: Failed to pull changes: " ++ pr.1.2.2))
    else
      pullFinish env stashed s

/-- pull_changes (src/iconfig.py lines 1213-1306).  The pull strategy that
load_config would supply when use_rebase is None is passed in as
cfgPullStrategy. -/
def pullChanges (env : Env) (branchArg : Option String)
    (useRebaseArg : Option Bool) (cfgPullStrategy : String) (s : St) :
    Bool × St :=
  let br : String × St :=
    match branchArg with
    | some b => (b, s)
    | none =>
      let r := runCommand env ["git", "rev-parse", "--abbrev-ref", "HEAD"] true s
      if r.1.1 ≠ 0 then ("main", r.2) else (stripStr r.1.2.1, r.2)
  let branch := br.1
  let s := br.2
  let useRebase :=
    match useRebaseArg with
    | some b => b
    | none => cfgPullStrategy = "rebase"
  let s := emitLog s ("Pulling changes from branch: " ++ branch)
  let st0 := runCommand env ["git", "status", "--porcelain"] false s
  let s := st0.2
  if st0.1.1 = 0 ∧ stripStr st0.1.2.1 ≠ "" then
    let s := emitLog s "Uncommitted changes detected. Stashing them before pull."
    let s := emitLog s "WARNING: Uncommitted changes detected. Stashing them temporarily..."
    let sr := runCommand env ["git", "stash", "push", "-m", "Auto-stash before pull"] false s
    let s := sr.2
    if sr.1.1 ≠ 0 then
      (false, emitLog (emitLog s ("Failed to stash changes: " ++ sr.1.2.2))
        "ERROR: Failed to stash uncommitted changes. Please commit or stash them manually.")
    else
      pullChangesRest env branch useRebase true s
  else
    pullChangesRest env branch useRebase false s

end IConfig


namespace IConfig

/-- Behaviour of pullChangesRest when the rebase pull hits a conflict and
the merge fallback also fails (src/iconfig.py lines 1268-1290). -/
theorem pullRest_conflict_fallback
    (env : Env) (b : String) (stashed : Bool) (s : St)
    (hfetch : (env.run ["git", "fetch", "origin"]).1 = 0)
    (hpullfail : (env.run ["git", "pull", "--rebase", "origin", b]).1 ≠ 0)
    (hconflict : conflictIn (env.run ["git", "pull", "--rebase", "origin", b]).2.2 = true)
    (hmergefail : (env.run ["git", "pull", "origin", b]).1 ≠ 0) :
    (pullChangesRest env b true stashed s).1 = false
    ∧ (pullChangesRest env b true stashed s).2.fs = s.fs
    ∧ (pullChangesRest env b true stashed s).2.trace =
        s.trace ++
        [ Ev.cmd ["git", "fetch", "origin"],
          Ev.cmd ["git", "pull", "--rebase", "origin", b],
          Ev.log "Merge conflicts detected during rebase",
          Ev.log "ERROR: Conflicts detected during pull. Attempting to abort rebase...",
          Ev.cmd ["git", "rebase", "--abort"],
          Ev.log "WARNING: Falling back to regular merge strategy...",
          Ev.cmd ["git", "pull", "origin", b],
          Ev.log ("Failed to pull changes even with merge strategy: "
            ++ (env.run ["git", "pull", "origin", b]).2.2),
          Ev.log "ERROR: Failed to pull changes. Your repository may have conflicts that need manual resolution.",
          Ev.log "You can try resolving this manually with: cd ~/.mac-sync-wizard/repo && git pull" ] := by
  simp only [pullChangesRest, runCommand, emitLog, emitCmd, if_true, ite_true,
    List.cons_append, List.nil_append, false_and, if_false, ite_false,
    hfetch, hpullfail, hconflict]
  simp [hfetch, hpullfail, hconflict, hmergefail, List.append_assoc]

/-- C1: an invocation of pull_changes that resolves to the rebase strategy,
in which the rebase pull fails with a conflict, aborts the rebase (the
command git rebase --abort is issued immediately after the failed pull, so
the working tree is not left mid-rebase), retries with a plain merge pull,
and if that also fails returns False after printing the manual-resolution
instruction. -/
theorem c1_pull_rebase_conflict_fallback
    (env : Env) (b cfgStrat : String) (useRebaseArg : Option Bool) (s : St)
    (hreb : useRebaseArg = some true ∨ (useRebaseArg = none ∧ cfgStrat = "rebase"))
    (hstash : (env.run ["git", "status", "--porcelain"]).1 = 0 →
      stripStr (env.run ["git", "status", "--porcelain"]).2.1 ≠ "" →
      (env.run ["git", "stash", "push", "-m", "Auto-stash before pull"]).1 = 0)
    (hfetch : (env.run ["git", "fetch", "origin"]).1 = 0)
    (hpullfail : (env.run ["git", "pull", "--rebase", "origin", b]).1 ≠ 0)
    (hconflict : conflictIn (env.run ["git", "pull", "--rebase", "origin", b]).2.2 = true)
    (hmergefail : (env.run ["git", "pull", "origin", b]).1 ≠ 0) :
    (pullChanges env (some b) useRebaseArg cfgStrat s).1 = false
    ∧ (pullChanges env (some b) useRebaseArg cfgStrat s).2.fs = s.fs
    ∧ ∃ pre, (pullChanges env (some b) useRebaseArg cfgStrat s).2.trace =
        s.trace ++ pre ++
        [ Ev.cmd ["git", "pull", "--rebase", "origin", b],
          Ev.log "Merge conflicts detected during rebase",
          Ev.log "ERROR: Conflicts detected during pull. Attempting to abort rebase...",
          Ev.cmd ["git", "rebase", "--abort"],
          Ev.log "WARNING: Falling back to regular merge strategy...",
          Ev.cmd ["git", "pull", "origin", b],
          Ev.log ("Failed to pull changes even with merge strategy: "
            ++ (env.run ["git", "pull", "origin", b]).2.2),
          Ev.log "ERROR: Failed to pull changes. Your repository may have conflicts that need manual resolution.",
          Ev.log "You can try resolving this manually with: cd ~/.mac-sync-wizard/repo && git pull" ] := by
  have step : ∀ st : St, st.fs = s.fs → (∃ t, st.trace = s.trace ++ t) →
      ∀ stashed,
      (pullChangesRest env b true stashed st).1 = false
      ∧ (pullChangesRest env b true stashed st).2.fs = s.fs
      ∧ ∃ pre, (pullChangesRest env b true stashed st).2.trace =
          s.trace ++ pre ++
          [ Ev.cmd ["git", "pull", "--rebase", "origin", b],
            Ev.log "Merge conflicts detected during rebase",
            Ev.log "ERROR: Conflicts detected during pull. Attempting to abort rebase...",
            Ev.cmd ["git", "rebase", "--abort"],
            Ev.log "WARNING: Falling back to regular merge strategy...",
            Ev.cmd ["git", "pull", "origin", b],
            Ev.log ("Failed to pull changes even with merge strategy: "
              ++ (env.run ["git", "pull", "origin", b]).2.2),
            Ev.log "ERROR: Failed to pull changes. Your repository may have conflicts that need manual resolution.",
            Ev.log "You can try resolving this manually with: cd ~/.mac-sync-wizard/repo && git pull" ] := by
    rintro st hfs ⟨t, ht⟩ stashed
    obtain ⟨r1, r2, r3⟩ := pullRest_conflict_fallback env b stashed st
      hfetch hpullfail hconflict hmergefail
    refine ⟨r1, by rw [r2, hfs], ⟨t ++ [Ev.cmd ["git", "fetch", "origin"]], ?_⟩⟩
    rw [r3, ht]
    simp [List.append_assoc]
  have ur : (pullChanges env (some b) useRebaseArg cfgStrat s) =
      (let s1 := emitLog s ("Pulling changes from branch: " ++ b)
       let st0 := runCommand env ["git", "status", "--porcelain"] false s1
       let s2 := st0.2
       if st0.1.1 = 0 ∧ stripStr st0.1.2.1 ≠ "" then
         let s3 := emitLog s2 "Uncommitted changes detected. Stashing them before pull."
         let s4 := emitLog s3 "WARNING: Uncommitted changes detected. Stashing them temporarily..."
         let sr := runCommand env ["git", "stash", "push", "-m", "Auto-stash before pull"] false s4
         let s5 := sr.2
         if sr.1.1 ≠ 0 then
           (false, emitLog (emitLog s5 ("Failed to stash changes: " ++ sr.1.2.2))
             "ERROR: Failed to stash uncommitted changes. Please commit or stash them manually.")
         else
           pullChangesRest env b true true s5
       else
         pullChangesRest env b true false s2) := by
    rcases hreb with h | ⟨h1, h2⟩
    · subst h; rfl
    · subst h1; subst h2; rfl
  rw [ur]
  by_cases hd : (env.run ["git", "status", "--porcelain"]).1 = 0 ∧
      stripStr (env.run ["git", "status", "--porcelain"]).2.1 ≠ ""
  · have hs0 := hstash hd.1 hd.2
    simp only [runCommand, emitLog, emitCmd, Bool.false_eq_true, false_and,
      if_false, ite_false]
    rw [if_pos hd]
    have hns : ¬ ((env.run ["git", "stash", "push", "-m", "Auto-stash before pull"]).1 ≠ 0) := by
      simp [hs0]
    rw [if_neg hns]
    apply step
    · rfl
    · exact ⟨[Ev.log ("Pulling changes from branch: " ++ b),
        Ev.cmd ["git", "status", "--porcelain"],
        Ev.log "Uncommitted changes detected. Stashing them before pull.",
        Ev.log "WARNING: Uncommitted changes detected. Stashing them temporarily...",
        Ev.cmd ["git", "stash", "push", "-m", "Auto-stash before pull"]], by
          simp [List.append_assoc]⟩
  · simp only [runCommand, emitLog, emitCmd, Bool.false_eq_true, false_and,
      if_false, ite_false]
    rw [if_neg hd]
    apply step
    · rfl
    · exact ⟨[Ev.log ("Pulling changes from branch: " ++ b),
        Ev.cmd ["git", "status", "--porcelain"]], by simp [List.append_assoc]⟩


/-- Environment for the C1 witness: a conflicted rebase pull and a failing
merge pull, everything else succeeding. -/
def envC1 : Env :=
  { run := fun args =>
      if args = ["git", "pull", "--rebase", "origin", "main"] then
        (1, "", "CONFLICT (content): merge conflict in file")
      else if args = ["git", "pull", "origin", "main"] then
        (1, "", "error: failed to merge")
      else (0, "", ""),
    diskFreeMB := 1000, dnsOk := true, now := "2025-01-01T00:00:00",
    nowStamp := "20250101_000000" }

/-- Witness for C1 at a concrete environment. -/
theorem c1_pull_rebase_conflict_fallback_witness :
    conflictIn (envC1.run ["git", "pull", "--rebase", "origin", "main"]).2.2 = true
    ∧ (pullChanges envC1 (some "main") (some true) "rebase" ⟨[], []⟩).1 = false :=
  ⟨by decide,
   (c1_pull_rebase_conflict_fallback envC1 "main" "rebase" (some true) ⟨[], []⟩
      (Or.inl rfl) (by decide) (by decide) (by decide) (by decide) (by decide)).1⟩

end IConfig

namespace IConfig

/-- Python str.startswith. -/
def startsWithStr (pre s : String) : Bool := pre.data.isPrefixOf s.data

/-- Python str.endswith. -/
def endsWithStr (suf s : String) : Bool := suf.data.isSuffixOf s.data

/-- Python str.split() with no argument: split on whitespace, dropping
empty tokens. -/
def splitWsAux : List Char → List Char → List String
  | [], acc => if acc = [] then [] else [String.mk acc.reverse]
  | c :: cs, acc =>
    if c.isWhitespace then
      (if acc = [] then splitWsAux cs [] else String.mk acc.reverse :: splitWsAux cs [])
    else splitWsAux cs (c :: acc)

def splitWs (s : String) : List String := splitWsAux s.data []

/-- Python int() on the digit strings du emits (signs and surrounding
whitespace do not occur there); None models the ValueError path. -/
def parseNat (s : String) : Option Nat :=
  if s.data ≠ [] ∧ s.data.all Char.isDigit then
    some (s.data.foldl (fun acc c => acc * 10 + (c.toNat - 48)) 0)
  else none

/-- Replace every occurrence of a (non-empty) pattern in a string. -/
def replaceSubAux (pat rep : List Char) : List Char → List Char
  | [] => []
  | c :: cs =>
    if pat.isPrefixOf (c :: cs) then
      rep ++ replaceSubAux pat rep (cs.drop (pat.length - 1))
    else
      c :: replaceSubAux pat rep cs
termination_by l => l.length
decreasing_by
  · simp [List.length_drop]; omega
  · simp

def replaceSub (s pat rep : String) : String :=
  String.mk (replaceSubAux pat.data rep.data s.data)

/-- commit_message_template.format(date=..., changes=...). -/
def formatTemplate (t date changes : String) : String :=
  replaceSub (replaceSub t "\x7bdate\x7d" date) "\x7bchanges\x7d" changes

/-- fnmatch.fnmatch for the patterns this repository uses (literals with
star and question-mark wildcards; character classes do not occur in any
configured pattern). -/
def fnmatchL (p n : List Char) : Bool :=
  match p, n with
  | [], [] => true
  | [], _ :: _ => false
  | '*' :: ps, [] => fnmatchL ps []
  | '*' :: ps, c :: cs => fnmatchL ps (c :: cs) || fnmatchL ('*' :: ps) cs
  | '?' :: _, [] => false
  | '?' :: ps, _ :: cs => fnmatchL ps cs
  | _ :: _, [] => false
  | ch :: ps, c :: cs => ch = c && fnmatchL ps cs
termination_by (p.length, n.length)

def fnmatchStr (name pattern : String) : Bool := fnmatchL pattern.data name.data

/-- The human-size loop of get_directory_size (src/iconfig.py lines
462-467): repeatedly divide by 1024 until below 1024, returning the
divided quantity and its unit tag (the source computes in floating point
with one decimal; sizes only feed printed report lines). -/
def humanPairAux : Nat → List String → Nat × String
  | n, [] => (n * 1024 * 1024 * 1024 * 1024, toString n ++ " PB")
  | n, u :: us => if n < 1024 then (n, toString n ++ " " ++ u) else humanPairAux (n / 1024) us

def humanPair (n : Nat) : Nat × String :=
  humanPairAux n ["B", "KB", "MB", "GB", "TB"]

def humanStr (n : Nat) : String := (humanPair n).2

end IConfig

namespace IConfig

/-- The configuration fields the sync engine reads (the dictionary entries
of the loaded configuration become record fields). -/
structure UtilCfg where
  enabled : Bool
  paths : List Path
  excludePatterns : List String
  includePatterns : List String := []
  customFonts : List String := []

structure Config where
  dryRun : Bool := false
  verbose : Bool := false
  repoUrl : String
  repoBranch : String
  autoCommit : Bool
  commitMessageTemplate : String
  pullStrategy : String
  utilities : List (String × UtilCfg)

def lookupUtil : List (String × UtilCfg) → String → Option UtilCfg
  | [], _ => none
  | (k, v) :: rest, k2 => if k = k2 then some v else lookupUtil rest k2

/-- get_enabled_utilities (src/iconfig.py lines 374-379). -/
def getEnabledUtilities (cfg : Config) : List String :=
  (cfg.utilities.filter (fun u => u.2.enabled)).map (fun u => u.1)

/-- check_disk_space (src/iconfig.py lines 472-482), at the 100 MB
requirement perform_preflight_checks uses. -/
def checkDiskSpace (env : Env) : Bool × String :=
  if env.diskFreeMB < 100 then
    (false, "Insufficient disk space")
  else
    (true, "Sufficient disk space")

/-- check_network_connectivity (src/iconfig.py lines 484-492). -/
def checkNetworkConnectivity (env : Env) : Bool × String :=
  if env.dnsOk then (true, "Network connectivity verified")
  else (false, "No network connectivity detected")

/-- check_git_credentials (src/iconfig.py lines 494-506). -/
def checkGitCredentials (fs : FS) (repoUrl : String) : Bool × String :=
  if repoUrl = "" then (true, "No repository configured")
  else if startsWithStr "git@" repoUrl then
    if pathExists fs (HOME_DIR ++ [".ssh", "id_rsa"])
        || pathExists fs (HOME_DIR ++ [".ssh", "id_ed25519"]) then
      (true, "Git credentials check passed")
    else
      (false, "No SSH key found. Please set up SSH keys for Git authentication")
  else (true, "Git credentials check passed")

/-- check_git_lfs (src/iconfig.py lines 508-513). -/
def checkGitLfs (env : Env) (s : St) : (Bool × String) × St :=
  let r := commandExists env "git-lfs" s
  if r.1 then ((true, "Git LFS is installed"), r.2)
  else ((false, "Git LFS not installed (needed for large files)"), r.2)

def reportCheck (name : String) (r : Bool × String) (s : St) : St :=
  if r.1 then emitLog s ("check ok: " ++ name ++ ": " ++ r.2)
  else emitLog s ("ERROR: check failed: " ++ name ++ ": " ++ r.2)

/-- perform_preflight_checks (src/iconfig.py lines 515-536).  The Git
installation check evaluates command_exists("git") twice, as in the
source. -/
def performPreflightChecks (env : Env) (cfg : Config) (s : St) : Bool × St :=
  let s := emitLog s "Performing pre-flight checks..."
  let g1 := commandExists env "git" s
  let g2 := commandExists env "git" g1.2
  let gitCheck : Bool × String :=
    (g1.1, if g2.1 then "Git is installed" else "Git is not installed")
  let s := reportCheck "Git installation" gitCheck g2.2
  let diskCheck := checkDiskSpace env
  let s := reportCheck "Disk space" diskCheck s
  let netCheck := checkNetworkConnectivity env
  let s := reportCheck "Network connectivity" netCheck s
  let credCheck := checkGitCredentials s.fs cfg.repoUrl
  let s := reportCheck "Git credentials" credCheck s
  let lfs := checkGitLfs env s
  let s := reportCheck "Git LFS" lfs.1 lfs.2
  (gitCheck.1 && diskCheck.1 && netCheck.1 && credCheck.1 && lfs.1.1, s)

/-- get_directory_size (src/iconfig.py lines 440-470): files by size,
directories via du -sk (falling back to a directory walk), then the
divide-by-1024 humanization loop. -/
def getDirectorySize (env : Env) (p : Path) (s : St) : (Nat × String) × St :=
  if isFileFS s.fs p then
    (humanPair (getsizeFS s.fs p), s)
  else
    let r := runCommand env ["du", "-sk", pathStr p] false s
    if r.1.1 = 0 then
      match (splitWs r.1.2.1).head? with
      | some tok =>
        match parseNat tok with
        | some n => (humanPair (n * 1024), r.2)
        | none => ((0, "0 B"), r.2)
      | none => ((0, "0 B"), r.2)
    else
      let n := ((entriesUnder r.2.fs p).map (fun e =>
        match e.2 with
        | Node.file c => c.length
        | Node.dir => 0)).sum
      (humanPair n, r.2)

end IConfig

namespace IConfig

def fontsDir : Path := HOME_DIR ++ ["Library", "Fonts"]

/-- get_font_files_for_family (src/iconfig.py lines 833-888): glob the
twelve prefix-star-extension patterns over the fonts directory, add
case-insensitive substring matches over the plain files there, de-duplicate
and sort. -/
def getFontFilesForFamily (fs : FS) (family : String) : List String :=
  let noSpace := String.mk (family.data.filter (fun c => c ≠ ' '))
  let dash := String.mk (family.data.map (fun c => if c = ' ' then '-' else c))
  let under := String.mk (family.data.map (fun c => if c = ' ' then '_' else c))
  let bases := [family, noSpace, dash, under]
  let exts := [".ttf", ".otf", ".ttc"]
  let pats := bases.flatMap (fun b => exts.map (fun e => b ++ "*" ++ e))
  let names := listdirFS fs fontsDir
  let globMatches := pats.flatMap (fun pat => names.filter (fun n => fnmatchStr n pat))
  let allFiles := names.filter (fun n => isFileFS fs (fontsDir ++ [n]))
  let famL := lowerStr family
  let famNoSpaceL := lowerStr noSpace
  let famDashL := String.mk (famL.data.map (fun c => if c = ' ' then '-' else c))
  let famUnderL := String.mk (famL.data.map (fun c => if c = ' ' then '_' else c))
  let ciMatches := allFiles.filter (fun f =>
    let fl := lowerStr f
    containsSub famL fl || containsSub famNoSpaceL fl
      || containsSub famDashL fl || containsSub famUnderL fl)
  ((globMatches ++ ciMatches).eraseDups).mergeSort (fun a b => a ≤ b)

/-- Inner loop of the custom-fonts branch of backup_fonts (src/iconfig.py
lines 922-934). -/
def backupFontsFamilyFile (backupPath : Path) (dryRun : Bool)
    (acc : Nat × St) (fontFile : String) : Nat × St :=
  let fc := acc.1
  let s := acc.2
  let fontPath := fontsDir ++ [fontFile]
  if pathExists s.fs fontPath then
    if dryRun then (fc + 1, emitLog s ("[DRY RUN] Would copy " ++ fontFile))
    else (fc + 1, { s with fs := copy2 s.fs fontPath (backupPath ++ [fontFile]) })
  else (fc, emitLog s ("Font file not found: " ++ fontFile))

/-- Per-family step of backup_fonts (src/iconfig.py lines 911-934). -/
def backupFontsFamilyStep (backupPath : Path) (dryRun : Bool)
    (acc : Nat × St) (family : String) : Nat × St :=
  let fc := acc.1
  let s := acc.2
  let fontFiles := getFontFilesForFamily s.fs family
  if fontFiles = [] then
    (fc, emitLog (emitLog s ("No files found for font family: " ++ family))
      ("WARNING: No files found for font family: " ++ family))
  else
    let s := emitLog s ("Found files for font family " ++ family)
    fontFiles.foldl (backupFontsFamilyFile backupPath dryRun) (fc, s)

/-- Per-pattern step of the include-patterns branch of backup_fonts
(src/iconfig.py lines 936-952). -/
def backupFontsIncludeStep (backupPath : Path) (dryRun : Bool)
    (acc : Nat × St) (pattern : String) : Nat × St :=
  let matching := (listdirFS acc.2.fs fontsDir).filter (fun n => fnmatchStr n pattern)
  matching.foldl (fun (a : Nat × St) name =>
    if dryRun then (a.1 + 1, emitLog a.2 ("[DRY RUN] Would copy font " ++ name))
    else (a.1 + 1, { a.2 with
      fs := copy2 a.2.fs (fontsDir ++ [name]) (backupPath ++ [name]) })) acc

/-- Per-file step of the backup-all branch of backup_fonts (src/iconfig.py
lines 958-979). -/
def backupFontsAllStep (backupPath : Path) (excl : List String)
    (dryRun : Bool) (acc : Nat × St) (name : String) : Nat × St :=
  let fc := acc.1
  let s := acc.2
  if excl.any (fun pat => fnmatchStr name pat) then (fc, s)
  else if isFileFS s.fs (fontsDir ++ [name]) then
    if dryRun then (fc + 1, emitLog s ("[DRY RUN] Would copy font " ++ name))
    else (fc + 1, { s with fs := copy2 s.fs (fontsDir ++ [name]) (backupPath ++ [name]) })
  else (fc, s)

/-- backup_fonts (src/iconfig.py lines 890-990). -/
def backupFonts (customFonts includePatterns excludePatterns : List String)
    (dryRun : Bool) (s : St) : Bool × St :=
  let s := emitLog s "Backing up fonts"
  let backupPath := REPO_DIR ++ ["backups", "fonts"]
  let s := if ¬ dryRun then { s with fs := makedirs s.fs backupPath } else s
  if ¬ pathExists s.fs fontsDir then
    (false, emitLog s "Fonts directory does not exist")
  else
    let r : Nat × St :=
      if customFonts ≠ [] then
        let s := emitLog s "Backing up font families"
        customFonts.foldl (backupFontsFamilyStep backupPath dryRun) (0, s)
      else if includePatterns ≠ [] then
        let s := emitLog s "Using include patterns"
        includePatterns.foldl (backupFontsIncludeStep backupPath dryRun) (0, s)
      else
        let s := emitLog (emitLog s
          "WARNING: No custom fonts or include patterns specified - backing up ALL fonts")
          "This may result in large backup sizes. Consider specifying custom_fonts or include_patterns."
        (listdirFS s.fs fontsDir).foldl
          (backupFontsAllStep backupPath excludePatterns dryRun) (0, s)
    let s := if r.1 = 0 then emitLog r.2 "No fonts were copied"
             else emitLog r.2 "Backed up font files"
    (true, s)

/-- Per-path loop body of backup_utility (src/iconfig.py lines 1004-1052).
The accumulator is (success, files_copied, state).  Trailing slashes of
configured paths are not represented in the component-list path model;
logger.debug lines are not recorded.  The filesystem effect of a
successful rsync invocation is external to the model (the issued command is
recorded in the trace). -/
def backupOnePath (env : Env) (backupPath : Path) (excl : List String)
    (dryRun : Bool) (acc : Bool × Nat × St) (path : Path) : Bool × Nat × St :=
  let success := acc.1
  let fc := acc.2.1
  let s := acc.2.2
  let expanded := expanduser path
  if ¬ pathExists s.fs expanded then
    (success, fc, emitLog s ("Path does not exist: " ++ pathStr expanded))
  else if isDirFS s.fs expanded then
    let destDir := backupPath ++ [lastComponent expanded]
    if dryRun then
      (success, fc + 1, emitLog s ("[DRY RUN] Would copy directory "
        ++ pathStr expanded ++ " to " ++ pathStr destDir))
    else
      let s := if pathExists s.fs destDir then
          { s with fs := fsRemoveTree s.fs destDir } else s
      let ce := commandExists env "rsync" s
      if ce.1 ∧ excl ≠ [] then
        let args := ["rsync", "-a", "--delete"]
          ++ excl.flatMap (fun pat => ["--exclude", pat])
          ++ [pathStr expanded ++ "/", pathStr destDir]
        let r := runCommand env args true ce.2
        (if r.1.1 ≠ 0 then false else success, fc + 1, r.2)
      else
        (success, fc + 1, { ce.2 with fs := copytree ce.2.fs expanded destDir })
  else
    if dryRun then
      (success, fc + 1, emitLog s ("[DRY RUN] Would copy file "
        ++ pathStr expanded ++ " to " ++ pathStr backupPath))
    else
      (success, fc + 1, { s with fs := copy2 s.fs expanded backupPath })

/-- backup_utility (src/iconfig.py lines 992-1059). -/
def backupUtility (env : Env) (name : String) (paths : List Path)
    (excl : List String) (dryRun : Bool) (s : St) : Bool × St :=
  let s := emitLog s ("Backing up " ++ name)
  let backupPath := REPO_DIR ++ ["backups", name]
  let s := if ¬ dryRun then { s with fs := makedirs s.fs backupPath } else s
  let r := paths.foldl (backupOnePath env backupPath excl dryRun) (true, 0, s)
  let s := if r.2.1 = 0 then emitLog r.2.2 ("No files were copied for " ++ name)
           else emitLog r.2.2 ("Backed up files for " ++ name)
  (r.1, s)

end IConfig

namespace IConfig

/-- commit_changes (src/iconfig.py lines 1148-1180). -/
def commitChanges (env : Env) (messageArg : Option String) (s : St) : Bool × St :=
  let message := messageArg.getD ("Auto-sync: " ++ env.now)
  let s := emitLog s ("Committing changes: " ++ message)
  let r1 := runCommand env ["git", "add", "."] true s
  if r1.1.1 ≠ 0 then (false, r1.2)
  else
    let r2 := runCommand env ["git", "status", "--porcelain"] true r1.2
    if r2.1.1 ≠ 0 then (false, r2.2)
    else if stripStr r2.1.2.1 = "" then (true, emitLog r2.2 "No changes to commit")
    else
      let r3 := runCommand env ["git", "commit", "-m", message] true r2.2
      if r3.1.1 ≠ 0 then (false, r3.2)
      else (true, emitLog r3.2 "Changes committed successfully")

/-- push_changes (src/iconfig.py lines 1182-1211). -/
def pushChanges (env : Env) (branchArg : Option String) (s : St) : Bool × St :=
  let br : String × St :=
    match branchArg with
    | some b => (b, s)
    | none =>
      let r := runCommand env ["git", "rev-parse", "--abbrev-ref", "HEAD"] true s
      if r.1.1 ≠ 0 then ("main", r.2) else (stripStr r.1.2.1, r.2)
  let s := emitLog br.2 ("Pushing changes to branch: " ++ br.1)
  let r := runCommand env ["git", "push", "origin", br.1] true s
  if r.1.1 ≠ 0 then (false, r.2)
  else (true, emitLog r.2 "Changes pushed successfully")

/-- is_syncing (src/iconfig.py lines 1312-1314). -/
def isSyncing (fs : FS) : Bool := pathExists fs LOCK_FILE

/-- create_lock_file (src/iconfig.py lines 1316-1324): writes the current
time into the lock file. -/
def createLockFile (env : Env) (s : St) : Bool × St :=
  (true, { s with fs := fsSet s.fs LOCK_FILE (Node.file env.now) })

/-- remove_lock_file (src/iconfig.py lines 1326-1334). -/
def removeLockFile (s : St) : Bool × St :=
  if pathExists s.fs LOCK_FILE then
    (true, { s with fs := fsRemove s.fs LOCK_FILE })
  else (true, s)

/-- update_last_sync_time (src/iconfig.py lines 1336-1344). -/
def updateLastSyncTime (env : Env) (s : St) : Bool × St :=
  (true, { s with fs := fsSet s.fs LAST_SYNC_FILE (Node.file env.now) })

/-- Size accumulation over a utility's configured paths (src/iconfig.py
lines 1483-1489, also lines 1474-1481 for fonts without custom
selection). -/
def sizeFromPaths (env : Env) (paths : List Path)
    (acc0 : (Nat × List String) × St) : (Nat × List String) × St :=
  paths.foldl (fun acc path =>
    let expanded := expanduser path
    if pathExists acc.2.fs expanded then
      let r := getDirectorySize env expanded acc.2
      ((acc.1.1 + r.1.1, acc.1.2 ++ [lastComponent expanded ++ ": " ++ r.1.2]), r.2)
    else acc) acc0

/-- The fonts-specific size calculation (src/iconfig.py lines 1423-1481). -/
def sizeFonts (env : Env) (paths : List Path)
    (customFonts includePatterns : List String) (s : St) :
    (Nat × List String) × St :=
  if customFonts ≠ [] ∨ includePatterns ≠ [] then
    if customFonts ≠ [] then
      customFonts.foldl (fun acc family =>
        let files := getFontFilesForFamily acc.2.fs family
        let famSize := (files.map (fun f =>
          if pathExists acc.2.fs (fontsDir ++ [f]) then
            getsizeFS acc.2.fs (fontsDir ++ [f])
          else 0)).sum
        if famSize > 0 then
          ((acc.1.1 + famSize, acc.1.2 ++ [family ++ ": " ++ humanStr famSize]), acc.2)
        else acc) ((0, []), s)
    else
      includePatterns.foldl (fun acc pattern =>
        let matching := (listdirFS acc.2.fs fontsDir).filter
          (fun n => fnmatchStr n pattern)
        let psize := (matching.map (fun n =>
          if pathExists acc.2.fs (fontsDir ++ [n]) then
            getsizeFS acc.2.fs (fontsDir ++ [n])
          else 0)).sum
        if psize > 0 then
          ((acc.1.1 + psize, acc.1.2 ++ [pattern ++ ": " ++ humanStr psize]), acc.2)
        else acc) ((0, []), s)
  else
    sizeFromPaths env paths ((0, []), s)

/-- Accumulator of the per-utility loop of perform_sync: the failure list,
the recorded (utility, size, details) entries, the running total and the
process state. -/
structure LoopAcc where
  failures : List String
  sizes : List (String × Nat × List String)
  total : Nat
  st : St

/-- One iteration of the per-utility loop of perform_sync (src/iconfig.py
lines 1412-1525): size estimation (including the get_directory_size("dummy")
call of line 1495), the progress line, then the backup itself, recording a
failure without aborting the loop. -/
def syncUtilityStep (env : Env) (cfg : Config) (dry : Bool)
    (acc : LoopAcc) (u : String) : LoopAcc :=
  match lookupUtil cfg.utilities u with
  | none => { acc with st := emitLog acc.st ("No configuration found for utility: " ++ u) }
  | some ucfg =>
    let sz : (Nat × List String) × St :=
      if u = "fonts" then
        sizeFonts env ucfg.paths ucfg.customFonts ucfg.includePatterns acc.st
      else
        sizeFromPaths env ucfg.paths ((0, []), acc.st)
    let size := sz.1.1
    let info := sz.1.2
    let dm := getDirectorySize env ["dummy"] sz.2
    let s := emitLog dm.2 ((if dry then "Would backup " else "Backing up ")
      ++ u ++ " (" ++ humanStr size ++ ")...")
    let bres : Bool × St :=
      if u = "fonts" then
        backupFonts ucfg.customFonts ucfg.includePatterns ucfg.excludePatterns dry s
      else
        backupUtility env u ucfg.paths ucfg.excludePatterns dry s
    { failures := if bres.1 then acc.failures else acc.failures ++ [u],
      sizes := acc.sizes ++ [(u, size, info)],
      total := acc.total + size,
      st := bres.2 }

/-- The commit-and-push tail of perform_sync (src/iconfig.py lines
1551-1569): only a commit failure makes the sync fail; a push failure is
reported and swallowed. -/
def performSyncCommit (env : Env) (cfg : Config) (enabledCount : Nat)
    (s : St) : Bool × St :=
  if cfg.autoCommit ∧ ¬ cfg.dryRun then
    let s := emitLog s "Committing and pushing changes..."
    let msg := formatTemplate cfg.commitMessageTemplate env.now
      (toString enabledCount ++ " utilities")
    let cr := commitChanges env (some msg) s
    if ¬ cr.1 then
      (false, emitLog (emitLog cr.2 "Failed to commit changes")
        "WARNING: Failed to commit changes. Your backups are saved locally.")
    else
      let pr := pushChanges env (some cfg.repoBranch) cr.2
      let s := if ¬ pr.1 then
          emitLog (emitLog (emitLog pr.2 "Failed to push changes")
            "WARNING: Failed to push changes. Your changes are committed locally.")
            "You can try pushing manually later with: cd ~/.mac-sync-wizard/repo && git push"
        else pr.2
      (true, s)
  else if cfg.autoCommit ∧ cfg.dryRun then
    (true, emitLog s "[DRY RUN] Would commit and push changes")
  else (true, s)

/-- perform_sync (src/iconfig.py lines 1370-1577). -/
def performSync (env : Env) (cfg : Config) (s : St) : Bool × St :=
  let s := emitLog s "Starting sync operation"
  let s := if cfg.dryRun then
      emitLog s "WARNING: Running in DRY RUN mode - no changes will be made"
    else s
  let pf := performPreflightChecks env cfg s
  if ¬ pf.1 then
    (false, emitLog (emitLog pf.2 "Pre-flight checks failed")
      "ERROR: Pre-flight checks failed. Please resolve the issues above before syncing.")
  else if cfg.repoUrl = "" then
    (false, emitLog (emitLog pf.2 "No repository configured")
      "ERROR: No repository configured. Please run setup first.")
  else
    let s :=
      if ¬ cfg.dryRun then
        let s := emitLog pf.2 "Pulling latest changes from repository..."
        let pr := pullChanges env (some cfg.repoBranch) none cfg.pullStrategy s
        if ¬ pr.1 then
          emitLog (emitLog pr.2 "Failed to pull changes from repository")
            "WARNING: Failed to pull changes. Continuing with local state..."
        else pr.2
      else emitLog pf.2 "[DRY RUN] Would pull latest changes from repository"
    let enabled := getEnabledUtilities cfg
    if enabled = [] then
      (true, emitLog (emitLog s "No utilities enabled for sync")
        "WARNING: No utilities are enabled for sync. Enable utilities using config.")
    else
      let s := emitLog s "Backing up enabled utilities..."
      let lr := enabled.foldl (syncUtilityStep env cfg cfg.dryRun)
        { failures := [], sizes := [], total := 0, st := s }
      let s := lr.st
      let s := if lr.failures ≠ [] then
          emitLog s ("WARNING: Failed to backup: "
            ++ String.intercalate ", " lr.failures)
        else s
      let s := if cfg.verbose then
          lr.sizes.foldl (fun s2 entry =>
            if entry.2.2 ≠ [] then
              emitLog s2 (entry.1 ++ ": " ++ String.intercalate "; " entry.2.2)
            else s2) (emitLog s "Backup size summary:")
        else s
      let s := emitLog s ("Total size to sync: " ++ humanStr lr.total)
      let cp := performSyncCommit env cfg enabled.length s
      if ¬ cp.1 then (false, cp.2)
      else
        let s := if ¬ cfg.dryRun then (updateLastSyncTime env cp.2).2 else cp.2
        let s := emitLog s "Sync operation completed successfully"
        let s := emitLog s ("Successfully synced utilities: "
          ++ toString (enabled.length - lr.failures.length))
        (true, s)

/-- Outcome of a Python call: a returned boolean, or a raised exception
propagating out. -/
inductive Outcome where
  | ok : Bool → Outcome
  | exn : Outcome

/-- sync_once (src/iconfig.py lines 1358-1368) generalized over the guarded
body, so that a body that raises (Outcome.exn) is covered: the lock check,
lock creation, the try body, and the finally-block removal. -/
def syncOnceGen (env : Env) (body : St → Outcome × St) (s : St) : Outcome × St :=
  if isSyncing s.fs then
    (Outcome.ok false, emitLog s "Sync already in progress")
  else
    let s1 := (createLockFile env s).2
    let r := body s1
    let s2 := (removeLockFile r.2).2
    (r.1, s2)

/-- sync_once (src/iconfig.py lines 1358-1368) with its actual body,
perform_sync. -/
def syncOnce (env : Env) (cfg : Config) (s : St) : Bool × St :=
  if isSyncing s.fs then
    (false, emitLog s "Sync already in progress")
  else
    let s1 := (createLockFile env s).2
    let r := performSync env cfg s1
    let s2 := (removeLockFile r.2).2
    (r.1, s2)

/-- create_backup_before_restore (src/iconfig.py lines 1061-1086): a
timestamped directory under restore_backups receives a copy of every
currently existing destination path, keyed by its path relative to the
home directory. -/
def createBackupBeforeRestore (env : Env) (name : String)
    (destPaths : List Path) (s : St) : Option Path × St :=
  let backupDir := APP_DIR ++ ["restore_backups", name ++ "_" ++ env.nowStamp]
  let s := { s with fs := makedirs s.fs backupDir }
  let s := destPaths.foldl (fun s2 path =>
    let expanded := expanduser path
    if pathExists s2.fs expanded then
      let rel := expanded.drop HOME_DIR.length
      let bp := backupDir ++ rel
      let s3 := { s2 with fs := makedirs s2.fs bp.dropLast }
      if isDirFS s3.fs expanded then
        { s3 with fs := copytree s3.fs expanded bp }
      else
        { s3 with fs := copy2 s3.fs expanded bp }
    else s2) s
  (some backupDir, emitLog s ("Created backup for " ++ name))

/-- Per-destination-path loop body of restore_utility (src/iconfig.py
lines 1106-1139). -/
def restoreOnePath (backupPath : Path) (acc : Nat × St) (path : Path) :
    Nat × St :=
  let expanded := expanduser path
  let baseDir := expanded.dropLast
  let s := { acc.2 with fs := makedirs acc.2.fs baseDir }
  if isDirFS s.fs backupPath then
    (listdirFS s.fs backupPath).foldl (fun (a : Nat × St) item =>
      let itemPath := backupPath ++ [item]
      let destItemPath := baseDir ++ [item]
      if isDirFS a.2.fs itemPath then
        let s2 := if pathExists a.2.fs destItemPath then
            { a.2 with fs := fsRemoveTree a.2.fs destItemPath }
          else a.2
        (a.1 + 1, { s2 with fs := copytree s2.fs itemPath destItemPath })
      else
        (a.1 + 1, { a.2 with fs := copy2 a.2.fs itemPath baseDir }))
      (acc.1, s)
  else
    (acc.1 + 1, { s with fs := copy2 s.fs backupPath expanded })

/-- restore_utility (src/iconfig.py lines 1088-1146). -/
def restoreUtility (env : Env) (name : String) (destPaths : List Path)
    (s : St) : Bool × St :=
  let s := emitLog s ("Restoring " ++ name)
  let backupPath := REPO_DIR ++ ["backups", name]
  if ¬ pathExists s.fs backupPath then
    (false, emitLog s ("No backup found for " ++ name))
  else
    let cb := createBackupBeforeRestore env name destPaths s
    let s :=
      match cb.1 with
      | some bdir => emitLog cb.2 ("Created safety backup at: " ++ pathStr bdir)
      | none => cb.2
    let r := destPaths.foldl (restoreOnePath backupPath) (0, s)
    let s := if r.1 = 0 then emitLog r.2 ("No files were restored for " ++ name)
             else emitLog r.2 ("Restored files for " ++ name)
    (true, s)

end IConfig

namespace IConfig

theorem fsGet_fsRemove_self (fs : FS) (p : Path) :
    fsGet (fsRemove fs p) p = none := by
  induction fs with
  | nil => rfl
  | cons hd tl ih =>
    by_cases h : hd.1 = p
    · simpa [fsRemove, h] using ih
    · simpa [fsRemove, fsGet, h] using ih

theorem pathExists_removeLockFile (s : St) :
    pathExists (removeLockFile s).2.fs LOCK_FILE = false := by
  unfold removeLockFile pathExists
  by_cases h : (fsGet s.fs LOCK_FILE).isSome = true
  · simp [pathExists, h, fsGet_fsRemove_self]
  · simp only [Bool.not_eq_true] at h
    simp [pathExists, h]

/-- Default environment and configuration used by witnesses. -/
def env0 : Env :=
  { run := fun _ => (0, "", ""), diskFreeMB := 1000, dnsOk := true,
    now := "2025-01-01T00:00:00", nowStamp := "20250101_000000" }

def cfg0 : Config :=
  { repoUrl := "https://example.com/dotfiles.git", repoBranch := "main",
    autoCommit := true,
    commitMessageTemplate := "Auto-sync: \x7bdate\x7d - \x7bchanges\x7d",
    pullStrategy := "rebase", utilities := [] }

/-- C2: sync_once invoked while the lock file exists returns failure
immediately and the filesystem (repository tree, backups, last-sync file
and the lock file itself) is untouched. -/
theorem c2_sync_lock_held_noop (env : Env) (cfg : Config) (s : St)
    (hlock : isSyncing s.fs = true) :
    (syncOnce env cfg s).1 = false
    ∧ (syncOnce env cfg s).2.fs = s.fs
    ∧ (syncOnce env cfg s).2.trace = s.trace ++ [Ev.log "Sync already in progress"] := by
  simp [syncOnce, hlock, emitLog]

/-- Witness for C2: a state holding the lock. -/
theorem c2_sync_lock_held_noop_witness :
    isSyncing ([(LOCK_FILE, Node.file "t")] : FS) = true
    ∧ (syncOnce env0 cfg0 ⟨[(LOCK_FILE, Node.file "t")], []⟩).1 = false :=
  ⟨by decide,
   (c2_sync_lock_held_noop env0 cfg0 ⟨[(LOCK_FILE, Node.file "t")], []⟩ (by decide)).1⟩

end IConfig

namespace IConfig

/-- C7: sync_once releases the lock file on every exit path.  For any body
behaviour (perform_sync returning success, returning failure, or raising an
exception) and for the actual sync_once, any run that got past the initial
lock check ends with no lock file, because removal happens in the finally
block. -/
theorem c7_lock_released (env : Env) (s : St)
    (hnl : isSyncing s.fs = false) :
    (∀ body : St → Outcome × St,
      pathExists (syncOnceGen env body s).2.fs LOCK_FILE = false)
    ∧ (∀ cfg : Config,
      pathExists (syncOnce env cfg s).2.fs LOCK_FILE = false) := by
  constructor
  · intro body
    unfold syncOnceGen
    rw [hnl]
    simp only [Bool.false_eq_true, if_false]
    exact pathExists_removeLockFile _
  · intro cfg
    unfold syncOnce
    rw [hnl]
    simp only [Bool.false_eq_true, if_false]
    exact pathExists_removeLockFile _

/-- Witness for C7 at the empty filesystem, with a body that raises. -/
theorem c7_lock_released_witness :
    isSyncing (([] : FS)) = false
    ∧ pathExists (syncOnceGen env0 (fun s => (Outcome.exn, s)) ⟨[], []⟩).2.fs
        LOCK_FILE = false :=
  ⟨by decide,
   (c7_lock_released env0 ⟨[], []⟩ (by decide)).1 (fun s => (Outcome.exn, s))⟩

/-- C10: restoring a utility with no backup directory present under
backups/<utility> fails immediately: restore_utility returns False, creates
no safety copy and modifies no destination path (the filesystem is
unchanged). -/
theorem c10_restore_missing_backup (env : Env) (name : String)
    (destPaths : List Path) (s : St)
    (hnb : pathExists s.fs (REPO_DIR ++ ["backups", name]) = false) :
    (restoreUtility env name destPaths s).1 = false
    ∧ (restoreUtility env name destPaths s).2.fs = s.fs := by
  simp [restoreUtility, emitLog, hnb]

/-- Witness for C10 at the empty filesystem. -/
theorem c10_restore_missing_backup_witness :
    pathExists ([] : FS) (REPO_DIR ++ ["backups", "cursor"]) = false
    ∧ (restoreUtility env0 "cursor" [["~", ".gitconfig"]] ⟨[], []⟩).1 = false :=
  ⟨by decide,
   (c10_restore_missing_backup env0 "cursor" [["~", ".gitconfig"]] ⟨[], []⟩
      (by decide)).1⟩

end IConfig

namespace IConfig

/-- Commands that never mutate the filesystem: which (command lookup) and
du (size reporting). -/
def readonlyCmd (c : List String) : Bool :=
  c.head? = some "which" || c.head? = some "du"

/-- State s2 extends state s without touching the filesystem and with only
read-only commands issued. -/
def DryExt (s s2 : St) : Prop :=
  s2.fs = s.fs ∧ ∃ t, s2.trace = s.trace ++ t
    ∧ ∀ c, Ev.cmd c ∈ t → readonlyCmd c = true

theorem dryExt_refl (s : St) : DryExt s s :=
  ⟨rfl, [], by simp, by simp⟩

theorem dryExt_trans {s1 s2 s3 : St} (h1 : DryExt s1 s2) (h2 : DryExt s2 s3) :
    DryExt s1 s3 := by
  obtain ⟨hf1, t1, ht1, hc1⟩ := h1
  obtain ⟨hf2, t2, ht2, hc2⟩ := h2
  refine ⟨hf2.trans hf1, t1 ++ t2, ?_, ?_⟩
  · rw [ht2, ht1, List.append_assoc]
  · intro c hc
    rcases List.mem_append.mp hc with h | h
    · exact hc1 c h
    · exact hc2 c h

theorem dryExt_emitLog {s s2 : St} (h : DryExt s s2) (m : String) :
    DryExt s (emitLog s2 m) := by
  obtain ⟨hf, t, ht, hc⟩ := h
  refine ⟨hf, t ++ [Ev.log m], ?_, ?_⟩
  · simp [emitLog, ht]
  · intro c hcm
    rcases List.mem_append.mp hcm with hh | hh
    · exact hc c hh
    · simp at hh

theorem dryExt_emitCmd {s s2 : St} (h : DryExt s s2) (c : List String)
    (hro : readonlyCmd c = true) : DryExt s (emitCmd s2 c) := by
  obtain ⟨hf, t, ht, hc⟩ := h
  refine ⟨hf, t ++ [Ev.cmd c], ?_, ?_⟩
  · simp [emitCmd, ht]
  · intro c2 hcm
    rcases List.mem_append.mp hcm with hh | hh
    · exact hc c2 hh
    · simp at hh
      rw [hh]
      exact hro

theorem dryExt_runCommand {s s2 : St} (h : DryExt s s2) (env : Env)
    (c : List String) (check : Bool) (hro : readonlyCmd c = true) :
    DryExt s (runCommand env c check s2).2 := by
  unfold runCommand
  by_cases hc : check = true ∧ (env.run c).1 ≠ 0
  · rw [if_pos hc]
    exact dryExt_emitLog (dryExt_emitLog (dryExt_emitLog (dryExt_emitLog
      (dryExt_emitCmd h c hro) _) _) _) _
  · rw [if_neg hc]
    exact dryExt_emitCmd h c hro

theorem dryExt_commandExists {s s2 : St} (h : DryExt s s2) (env : Env)
    (name : String) : DryExt s (commandExists env name s2).2 :=
  dryExt_runCommand h env ["which", name] false (by simp [readonlyCmd])

theorem dryExt_reportCheck {s s2 : St} (h : DryExt s s2) (name : String)
    (r : Bool × String) : DryExt s (reportCheck name r s2) := by
  unfold reportCheck
  by_cases hr : r.1 = true
  · rw [if_pos hr]; exact dryExt_emitLog h _
  · rw [if_neg hr]; exact dryExt_emitLog h _

theorem dryExt_checkGitLfs {s s2 : St} (h : DryExt s s2) (env : Env) :
    DryExt s (checkGitLfs env s2).2 := by
  unfold checkGitLfs
  by_cases hc : (commandExists env "git-lfs" s2).1 = true
  · rw [if_pos hc]; exact dryExt_commandExists h env _
  · rw [if_neg hc]; exact dryExt_commandExists h env _

theorem dryExt_preflight {s s2 : St} (h : DryExt s s2) (env : Env)
    (cfg : Config) : DryExt s (performPreflightChecks env cfg s2).2 := by
  unfold performPreflightChecks
  exact dryExt_reportCheck (dryExt_checkGitLfs (dryExt_reportCheck
    (dryExt_reportCheck (dryExt_reportCheck (dryExt_reportCheck
      (dryExt_commandExists (dryExt_commandExists (dryExt_emitLog h _)
        env "git") env "git") _ _) _ _) _ _) _ _) env) _ _

theorem dryExt_getDirectorySize {s s2 : St} (h : DryExt s s2) (env : Env)
    (p : Path) : DryExt s (getDirectorySize env p s2).2 := by
  unfold getDirectorySize
  have hdu : readonlyCmd ["du", "-sk", pathStr p] = true := by simp [readonlyCmd]
  by_cases h1 : isFileFS s2.fs p = true
  · rw [if_pos h1]; exact h
  · rw [if_neg h1]
    by_cases h2 : (runCommand env ["du", "-sk", pathStr p] false s2).1.1 = 0
    · rw [if_pos h2]
      split
      · split
        · exact dryExt_runCommand h env _ false hdu
        · exact dryExt_runCommand h env _ false hdu
      · exact dryExt_runCommand h env _ false hdu
    · rw [if_neg h2]
      exact dryExt_runCommand h env _ false hdu

/-- Generic fold preservation: if every step preserves DryExt on the
projected state, so does the whole fold. -/
theorem dryExt_foldl {α β : Type} (f : β → α → β) (proj : β → St)
    (hstep : ∀ b a, DryExt (proj b) (proj (f b a))) :
    ∀ (l : List α) (b : β), DryExt (proj b) (proj (List.foldl f b l)) := by
  intro l
  induction l with
  | nil => intro b; exact dryExt_refl _
  | cons hd tl ih =>
    intro b
    exact dryExt_trans (hstep b hd) (ih (f b hd))

end IConfig
namespace IConfig

theorem dryExt_backupFontsFamilyFile (bp : Path) (acc : Nat × St) (f : String) :
    DryExt acc.2 (backupFontsFamilyFile bp true acc f).2 := by
  simp only [backupFontsFamilyFile]
  by_cases h : pathExists acc.2.fs (fontsDir ++ [f]) = true
  · rw [if_pos h, if_pos trivial]
    exact dryExt_emitLog (dryExt_refl _) _
  · rw [if_neg h]
    exact dryExt_emitLog (dryExt_refl _) _

theorem dryExt_backupFontsFamilyStep (bp : Path) (acc : Nat × St)
    (family : String) :
    DryExt acc.2 (backupFontsFamilyStep bp true acc family).2 := by
  simp only [backupFontsFamilyStep]
  by_cases h : getFontFilesForFamily acc.2.fs family = []
  · rw [if_pos h]
    exact dryExt_emitLog (dryExt_emitLog (dryExt_refl _) _) _
  · rw [if_neg h]
    exact dryExt_trans (dryExt_emitLog (dryExt_refl _) _)
      (dryExt_foldl _ Prod.snd (fun b a => dryExt_backupFontsFamilyFile bp b a) _ _)

theorem dryExt_backupFontsIncludeStep (bp : Path) (acc : Nat × St)
    (pattern : String) :
    DryExt acc.2 (backupFontsIncludeStep bp true acc pattern).2 := by
  simp only [backupFontsIncludeStep]
  refine dryExt_foldl _ Prod.snd (fun b a => ?_) _ _
  rw [if_pos trivial]
  exact dryExt_emitLog (dryExt_refl _) _

theorem dryExt_backupFontsAllStep (bp : Path) (excl : List String)
    (acc : Nat × St) (name : String) :
    DryExt acc.2 (backupFontsAllStep bp excl true acc name).2 := by
  simp only [backupFontsAllStep]
  by_cases h1 : excl.any (fun pat => fnmatchStr name pat) = true
  · rw [if_pos h1]
    exact dryExt_refl _
  · rw [if_neg h1]
    by_cases h2 : isFileFS acc.2.fs (fontsDir ++ [name]) = true
    · rw [if_pos h2, if_pos trivial]
      exact dryExt_emitLog (dryExt_refl _) _
    · rw [if_neg h2]
      exact dryExt_refl _

theorem dryExt_zeroLog (s : St) (A B : String) (r : Nat × St)
    (h : DryExt s r.2) :
    DryExt s (if r.1 = 0 then emitLog r.2 A else emitLog r.2 B) := by
  by_cases hz : r.1 = 0
  · rw [if_pos hz]; exact dryExt_emitLog h _
  · rw [if_neg hz]; exact dryExt_emitLog h _

theorem dryExt_backupFonts (custom includeP excl : List String) (s : St) :
    DryExt s (backupFonts custom includeP excl true s).2 := by
  simp only [backupFonts, not_true, if_false, ite_false]
  have base : DryExt s (emitLog s "Backing up fonts") :=
    dryExt_emitLog (dryExt_refl _) _
  by_cases h0 : ¬ pathExists (emitLog s "Backing up fonts").fs fontsDir = true
  · rw [if_pos h0]
    exact dryExt_emitLog base _
  · rw [if_neg h0]
    refine dryExt_zeroLog s _ _ _ ?_
    by_cases hc : custom ≠ []
    · rw [if_pos hc]
      exact dryExt_trans (dryExt_emitLog base _)
        (dryExt_foldl _ Prod.snd (fun b a => dryExt_backupFontsFamilyStep _ b a) _ _)
    · rw [if_neg hc]
      by_cases hi : includeP ≠ []
      · rw [if_pos hi]
        exact dryExt_trans (dryExt_emitLog base _)
          (dryExt_foldl _ Prod.snd (fun b a => dryExt_backupFontsIncludeStep _ b a) _ _)
      · rw [if_neg hi]
        exact dryExt_trans (dryExt_emitLog (dryExt_emitLog base _) _)
          (dryExt_foldl _ Prod.snd (fun b a => dryExt_backupFontsAllStep _ _ b a) _ _)

end IConfig

namespace IConfig

theorem dryExt_ite {α : Type} (s : St) (c : Prop) [Decidable c]
    (a b : α × St) (hab : a.2 = b.2) (h : DryExt s b.2) :
    DryExt s (if c then a else b).2 := by
  by_cases hc : c
  · rw [if_pos hc]; rw [hab]; exact h
  · rw [if_neg hc]; exact h

theorem dryExt_iteSt (s : St) (c : Prop) [Decidable c] (a b : St)
    (ha : DryExt s a) (hb : DryExt s b) : DryExt s (if c then a else b) := by
  by_cases hc : c
  · rw [if_pos hc]; exact ha
  · rw [if_neg hc]; exact hb

theorem dryExt_backupOnePath (env : Env) (bp : Path) (excl : List String)
    (acc : Bool × Nat × St) (p : Path) :
    DryExt acc.2.2 (backupOnePath env bp excl true acc p).2.2 := by
  simp only [backupOnePath]
  by_cases h1 : ¬ pathExists acc.2.2.fs (expanduser p) = true
  · rw [if_pos h1]
    exact dryExt_emitLog (dryExt_refl _) _
  · rw [if_neg h1]
    by_cases h2 : isDirFS acc.2.2.fs (expanduser p) = true
    · rw [if_pos h2, if_pos trivial]
      exact dryExt_emitLog (dryExt_refl _) _
    · rw [if_neg h2, if_pos trivial]
      exact dryExt_emitLog (dryExt_refl _) _

theorem dryExt_zeroLog2 (s : St) (A B : String) (r : Bool × Nat × St)
    (h : DryExt s r.2.2) :
    DryExt s (if r.2.1 = 0 then emitLog r.2.2 A else emitLog r.2.2 B) := by
  by_cases hz : r.2.1 = 0
  · rw [if_pos hz]; exact dryExt_emitLog h _
  · rw [if_neg hz]; exact dryExt_emitLog h _

theorem dryExt_backupUtility (env : Env) (name : String) (paths : List Path)
    (excl : List String) (s : St) :
    DryExt s (backupUtility env name paths excl true s).2 := by
  simp only [backupUtility, not_true, if_false, ite_false]
  refine dryExt_zeroLog2 s _ _ _ ?_
  exact dryExt_trans (dryExt_emitLog (dryExt_refl _) _)
    (dryExt_foldl _ (fun b => b.2.2)
      (fun b a => dryExt_backupOnePath env _ excl b a) _ _)

theorem dryExt_sizeFromPaths (env : Env) (paths : List Path)
    (acc : (Nat × List String) × St) :
    DryExt acc.2 (sizeFromPaths env paths acc).2 := by
  simp only [sizeFromPaths]
  refine dryExt_foldl _ Prod.snd (fun b a => ?_) _ _
  by_cases h : pathExists b.2.fs (expanduser a) = true
  · rw [if_pos h]
    exact dryExt_getDirectorySize (dryExt_refl _) env _
  · rw [if_neg h]
    exact dryExt_refl _

theorem dryExt_sizeFonts (env : Env) (paths : List Path)
    (custom includeP : List String) (s : St) :
    DryExt s (sizeFonts env paths custom includeP s).2 := by
  simp only [sizeFonts]
  by_cases h : custom ≠ [] ∨ includeP ≠ []
  · rw [if_pos h]
    by_cases hc : custom ≠ []
    · rw [if_pos hc]
      refine dryExt_foldl _ Prod.snd (fun b a => ?_) _ _
      exact dryExt_ite _ _ _ _ rfl (dryExt_refl _)
    · rw [if_neg hc]
      refine dryExt_foldl _ Prod.snd (fun b a => ?_) _ _
      exact dryExt_ite _ _ _ _ rfl (dryExt_refl _)
  · rw [if_neg h]
    exact dryExt_sizeFromPaths env paths _

theorem dryExt_syncUtilityStep (env : Env) (cfg : Config) (acc : LoopAcc)
    (u : String) : DryExt acc.st (syncUtilityStep env cfg true acc u).st := by
  simp only [syncUtilityStep]
  split
  · exact dryExt_emitLog (dryExt_refl _) _
  · rename_i ucfg heq
    by_cases hf : u = "fonts"
    · simp only [hf, eq_self_iff_true, if_true, ite_true]
      exact dryExt_trans (dryExt_emitLog (dryExt_getDirectorySize
        (dryExt_sizeFonts env _ _ _ _) env _) _) (dryExt_backupFonts _ _ _ _)
    · simp only [hf, if_false, ite_false]
      exact dryExt_trans (dryExt_emitLog (dryExt_getDirectorySize
        (dryExt_sizeFromPaths env _ _) env _) _) (dryExt_backupUtility env _ _ _ _)

theorem dryExt_performSyncCommit (env : Env) (cfg : Config) (n : Nat) (s : St)
    (hdry : cfg.dryRun = true) :
    DryExt s (performSyncCommit env cfg n s).2 := by
  simp only [performSyncCommit, hdry, not_true, and_false, if_false, ite_false,
    and_true]
  by_cases ha : cfg.autoCommit = true
  · rw [if_pos ha]
    exact dryExt_emitLog (dryExt_refl _) _
  · rw [if_neg ha]
    exact dryExt_refl _

theorem dryExt_resTail (s : St) (cp : Bool × St) (A B : String)
    (h : DryExt s cp.2) :
    DryExt s ((if ¬ cp.1 = true then (false, cp.2)
      else (true, emitLog (emitLog cp.2 A) B)) : Bool × St).2 := by
  by_cases hc : ¬ cp.1 = true
  · rw [if_pos hc]; exact h
  · rw [if_neg hc]; exact dryExt_emitLog (dryExt_emitLog h _) _

theorem performSync_dry (env : Env) (cfg : Config) (s : St)
    (hdry : cfg.dryRun = true) :
    DryExt s (performSync env cfg s).2 := by
  simp only [performSync, hdry, if_true, ite_true, not_true, Bool.true_eq_false,
    if_false, ite_false]
  have h1 : DryExt s (emitLog (emitLog s "Starting sync operation")
      "WARNING: Running in DRY RUN mode - no changes will be made") :=
    dryExt_emitLog (dryExt_emitLog (dryExt_refl _) _) _
  have hpf := dryExt_preflight h1 env cfg
  by_cases hp : ¬ (performPreflightChecks env cfg (emitLog (emitLog s
      "Starting sync operation")
      "WARNING: Running in DRY RUN mode - no changes will be made")).1 = true
  · rw [if_pos hp]
    exact dryExt_emitLog (dryExt_emitLog hpf _) _
  · rw [if_neg hp]
    by_cases hu : cfg.repoUrl = ""
    · rw [if_pos hu]
      exact dryExt_emitLog (dryExt_emitLog hpf _) _
    · rw [if_neg hu]
      have hpull := dryExt_emitLog hpf "[DRY RUN] Would pull latest changes from repository"
      by_cases he : getEnabledUtilities cfg = []
      · rw [if_pos he]
        exact dryExt_emitLog (dryExt_emitLog hpull _) _
      · rw [if_neg he]
        refine dryExt_resTail s _ _ _
          (dryExt_trans ?_ (dryExt_performSyncCommit env cfg _ _ hdry))
        refine dryExt_emitLog ?_ _
        refine dryExt_iteSt s _ _ _ ?_ ?_
        · refine dryExt_trans (dryExt_emitLog ?_ _)
            (dryExt_foldl _ id (fun b a => dryExt_iteSt b _ _ _
              (dryExt_emitLog (dryExt_refl _) _) (dryExt_refl _)) _ _)
          refine dryExt_iteSt s _ _ _ (dryExt_emitLog ?_ _) ?_
          · exact dryExt_trans (dryExt_emitLog hpull _)
              (dryExt_foldl _ (fun b => b.st)
                (fun b a => dryExt_syncUtilityStep env cfg b a) _ _)
          · exact dryExt_trans (dryExt_emitLog hpull _)
              (dryExt_foldl _ (fun b => b.st)
                (fun b a => dryExt_syncUtilityStep env cfg b a) _ _)
        · refine dryExt_iteSt s _ _ _ (dryExt_emitLog ?_ _) ?_
          · exact dryExt_trans (dryExt_emitLog hpull _)
              (dryExt_foldl _ (fun b => b.st)
                (fun b a => dryExt_syncUtilityStep env cfg b a) _ _)
          · exact dryExt_trans (dryExt_emitLog hpull _)
              (dryExt_foldl _ (fun b => b.st)
                (fun b a => dryExt_syncUtilityStep env cfg b a) _ _)

end IConfig

namespace IConfig

/-- The intention line backup_utility logs in dry-run mode for an existing
source path (src/iconfig.py lines 1017-1018 and 1040-1041). -/
def dryCopyLog (bp : Path) (fs : FS) (p : Path) : Ev :=
  if isDirFS fs (expanduser p) then
    Ev.log ("[DRY RUN] Would copy directory " ++ pathStr (expanduser p)
      ++ " to " ++ pathStr (bp ++ [lastComponent (expanduser p)]))
  else
    Ev.log ("[DRY RUN] Would copy file " ++ pathStr (expanduser p)
      ++ " to " ++ pathStr bp)

theorem mem_of_dryExt {s s2 : St} (h : DryExt s s2) {e : Ev}
    (he : e ∈ s.trace) : e ∈ s2.trace := by
  obtain ⟨_, t, ht, _⟩ := h
  rw [ht]
  exact List.mem_append_left _ he

theorem backupLoop_dry_logs (env : Env) (bp : Path) (excl : List String)
    (fs0 : FS) :
    ∀ (paths : List Path) (acc : Bool × Nat × St), acc.2.2.fs = fs0 →
      ∀ p ∈ paths, pathExists fs0 (expanduser p) = true →
        dryCopyLog bp fs0 p
          ∈ (paths.foldl (backupOnePath env bp excl true) acc).2.2.trace := by
  intro paths
  induction paths with
  | nil => intro acc _ p hp; simp at hp
  | cons q rest ih =>
    intro acc hfs p hp hex
    have hfs1 : (backupOnePath env bp excl true acc q).2.2.fs = fs0 := by
      rw [(dryExt_backupOnePath env bp excl acc q).1, hfs]
    rcases List.mem_cons.mp hp with rfl | hmem
    · have hin : dryCopyLog bp fs0 p
          ∈ (backupOnePath env bp excl true acc p).2.2.trace := by
        have hex2 : pathExists acc.2.2.fs (expanduser p) = true := by
          rw [hfs]; exact hex
        simp only [backupOnePath, dryCopyLog]
        rw [if_neg (by simp [hex2])]
        by_cases hd : isDirFS acc.2.2.fs (expanduser p) = true
        · rw [if_pos hd, if_pos trivial]
          rw [show isDirFS fs0 (expanduser p) = true from hfs ▸ hd]
          simp [emitLog]
        · rw [if_neg hd, if_pos trivial]
          rw [show isDirFS fs0 (expanduser p) = false from by
            rw [← hfs]; simpa using hd]
          simp [emitLog]
      have hext := dryExt_foldl (backupOnePath env bp excl true)
        (fun b => b.2.2) (fun b a => dryExt_backupOnePath env bp excl b a)
        rest (backupOnePath env bp excl true acc p)
      exact mem_of_dryExt hext hin
    · exact ih (backupOnePath env bp excl true acc q) hfs1 p hmem hex

theorem mem_zeroLog2 (A B : String) (r : Bool × Nat × St) {e : Ev}
    (h : e ∈ r.2.2.trace) :
    e ∈ ((if r.2.1 = 0 then emitLog r.2.2 A else emitLog r.2.2 B) : St).trace := by
  by_cases hz : r.2.1 = 0
  · rw [if_pos hz]; simp [emitLog]; left; exact h
  · rw [if_neg hz]; simp [emitLog]; left; exact h

/-- C3: a sync run in dry-run mode leaves the repository working tree, the
last-sync timestamp file and all destination backup directories unchanged:
perform_sync returns with the filesystem exactly as it was and every
subprocess it issued is read-only (which or du), and backup_utility in
dry-run mode keeps the filesystem unchanged while logging a "[DRY RUN]
Would copy ..." intention for every existing source path. -/
theorem c3_dry_run_no_mutation (env : Env) (cfg : Config) (s : St)
    (hdry : cfg.dryRun = true) :
    ((performSync env cfg s).2.fs = s.fs
      ∧ ∃ t, (performSync env cfg s).2.trace = s.trace ++ t
          ∧ ∀ c, Ev.cmd c ∈ t → readonlyCmd c = true)
    ∧ (∀ (name : String) (paths : List Path) (excl : List String) (s2 : St),
        (backupUtility env name paths excl true s2).2.fs = s2.fs
        ∧ ∀ p ∈ paths, pathExists s2.fs (expanduser p) = true →
            dryCopyLog (REPO_DIR ++ ["backups", name]) s2.fs p
              ∈ (backupUtility env name paths excl true s2).2.trace) := by
  constructor
  · obtain ⟨hf, t, ht, hc⟩ := performSync_dry env cfg s hdry
    exact ⟨hf, t, ht, hc⟩
  · intro name paths excl s2
    constructor
    · exact (dryExt_backupUtility env name paths excl s2).1
    · intro p hp hex
      have hin := backupLoop_dry_logs env (REPO_DIR ++ ["backups", name]) excl
        s2.fs paths (true, 0, emitLog s2 ("Backing up " ++ name))
        (by simp [emitLog]) p hp hex
      simp only [backupUtility, not_true, if_false, ite_false]
      exact mem_zeroLog2 _ _ _ hin

/-- Witness for C3 at a concrete dry-run configuration. -/
theorem c3_dry_run_no_mutation_witness :
    (Config.dryRun { cfg0 with dryRun := true } = true)
    ∧ (performSync env0 { cfg0 with dryRun := true } ⟨[], []⟩).2.fs = [] :=
  ⟨rfl,
   (c3_dry_run_no_mutation env0 { cfg0 with dryRun := true } ⟨[], []⟩ rfl).1.1⟩

end IConfig
namespace IConfig

theorem foldl_proj_eq {α β γ : Type} (f : β → α → β) (proj : β → γ)
    (hstep : ∀ b a, proj (f b a) = proj b) :
    ∀ (l : List α) (b : β), proj (List.foldl f b l) = proj b := by
  intro l
  induction l with
  | nil => intro b; rfl
  | cons hd tl ih =>
    intro b
    rw [List.foldl_cons, ih, hstep]

theorem fs_runCommand (env : Env) (c : List String) (ch : Bool) (s : St) :
    (runCommand env c ch s).2.fs = s.fs := by
  simp only [runCommand, emitCmd, emitLog]
  split <;> rfl

theorem fs_getDirectorySize (env : Env) (p : Path) (s : St) :
    (getDirectorySize env p s).2.fs = s.fs := by
  simp only [getDirectorySize]
  split
  · rfl
  · split
    · split
      · split
        · exact fs_runCommand env _ _ _
        · exact fs_runCommand env _ _ _
      · exact fs_runCommand env _ _ _
    · exact fs_runCommand env _ _ _

theorem snd_ite_pair {α : Type} (c : Prop) [Decidable c] (x : α) (b : α × St) :
    ((if c then (x, b.2) else b) : α × St).2 = b.2 := by
  by_cases hc : c
  · rw [if_pos hc]
  · rw [if_neg hc]

theorem fs_sizeFromPaths (env : Env) (paths : List Path)
    (acc : (Nat × List String) × St) :
    (sizeFromPaths env paths acc).2.fs = acc.2.fs := by
  unfold sizeFromPaths
  refine foldl_proj_eq _ (fun (b : (Nat × List String) × St) => b.2.fs)
    (fun b a => ?_) _ _
  by_cases h : pathExists b.2.fs (expanduser a) = true
  · rw [if_pos h]
    exact fs_getDirectorySize env _ _
  · rw [if_neg h]

theorem fs_sizeFonts (env : Env) (paths : List Path)
    (custom includeP : List String) (s : St) :
    (sizeFonts env paths custom includeP s).2.fs = s.fs := by
  simp only [sizeFonts]
  by_cases h : custom ≠ [] ∨ includeP ≠ []
  · rw [if_pos h]
    by_cases hc : custom ≠ []
    · rw [if_pos hc]
      refine foldl_proj_eq _ (fun (b : (Nat × List String) × St) => b.2.fs)
        (fun b a => ?_) _ _
      exact congrArg St.fs (snd_ite_pair _ _ _)
    · rw [if_neg hc]
      refine foldl_proj_eq _ (fun (b : (Nat × List String) × St) => b.2.fs)
        (fun b a => ?_) _ _
      exact congrArg St.fs (snd_ite_pair _ _ _)
  · rw [if_neg h]
    exact fs_sizeFromPaths env paths _

theorem fsGet_makedirs_of_ne (fs : FS) (bp q : Path)
    (h : ∀ i, i ≤ bp.length → q ≠ bp.take i) :
    fsGet (makedirs fs bp) q = fsGet fs q := by
  unfold makedirs
  have main : ∀ (l : List Nat) (acc : FS), (∀ i ∈ l, q ≠ bp.take i) →
      fsGet (l.foldl (fun acc i =>
        let pre := bp.take i
        if pathExists acc pre then acc else fsSet acc pre Node.dir) acc) q
      = fsGet acc q := by
    intro l
    induction l with
    | nil => intro acc _; rfl
    | cons i rest ih =>
      intro acc hl
      rw [List.foldl_cons, ih _ (fun j hj => hl j (List.mem_cons_of_mem _ hj))]
      simp only []
      by_cases hp : pathExists acc (bp.take i) = true
      · rw [if_pos hp]
      · rw [if_neg hp]
        have hq : ¬ (bp.take i = q) := fun he => hl i (List.mem_cons_self _ _) he.symm
        simp [fsSet, fsGet, hq]
  refine main _ fs (fun i hi => h i ?_)
  have := List.mem_range.mp hi
  omega

theorem pathExists_makedirs_of_ne (fs : FS) (bp q : Path)
    (h : ∀ i, i ≤ bp.length → q ≠ bp.take i) :
    pathExists (makedirs fs bp) q = pathExists fs q := by
  unfold pathExists
  rw [fsGet_makedirs_of_ne fs bp q h]

end IConfig

namespace IConfig

theorem backupLoop_missing (env : Env) (bp : Path) (excl : List String)
    (dry : Bool) (fs0 : FS) :
    ∀ (paths : List Path) (acc : Bool × Nat × St), acc.2.2.fs = fs0 →
      (∀ p ∈ paths, pathExists fs0 (expanduser p) = false) →
      (paths.foldl (backupOnePath env bp excl dry) acc).1 = acc.1
      ∧ (paths.foldl (backupOnePath env bp excl dry) acc).2.1 = acc.2.1
      ∧ (paths.foldl (backupOnePath env bp excl dry) acc).2.2.fs = fs0
      ∧ (∃ t, (paths.foldl (backupOnePath env bp excl dry) acc).2.2.trace
          = acc.2.2.trace ++ t)
      ∧ (∀ p ∈ paths, Ev.log ("Path does not exist: " ++ pathStr (expanduser p))
          ∈ (paths.foldl (backupOnePath env bp excl dry) acc).2.2.trace) := by
  intro paths
  induction paths with
  | nil =>
    intro acc hfs _
    exact ⟨rfl, rfl, hfs, ⟨[], by simp⟩, by simp⟩
  | cons q rest ih =>
    intro acc hfs hmiss
    have hq : pathExists acc.2.2.fs (expanduser q) = false := by
      rw [hfs]; exact hmiss q (List.mem_cons_self _ _)
    have hstep : backupOnePath env bp excl dry acc q
        = (acc.1, acc.2.1,
            emitLog acc.2.2 ("Path does not exist: " ++ pathStr (expanduser q))) := by
      simp only [backupOnePath]
      rw [if_pos (by simp [hq])]
    rw [List.foldl_cons, hstep]
    obtain ⟨h1, h2, h3, ⟨t, ht⟩, h5⟩ := ih
      (acc.1, acc.2.1, emitLog acc.2.2 ("Path does not exist: " ++ pathStr (expanduser q)))
      (by simp [emitLog, hfs])
      (fun p hp => hmiss p (List.mem_cons_of_mem _ hp))
    refine ⟨h1, h2, h3, ?_, ?_⟩
    · refine ⟨[Ev.log ("Path does not exist: " ++ pathStr (expanduser q))] ++ t, ?_⟩
      rw [ht]
      simp [emitLog]
    · intro p hp
      rcases List.mem_cons.mp hp with rfl | hmem
      · rw [ht]
        simp [emitLog]
      · exact h5 p hmem

theorem backupUtility_missing (env : Env) (name : String) (paths : List Path)
    (excl : List String) (dry : Bool) (s2 : St)
    (hmiss : ∀ p ∈ paths, pathExists s2.fs (expanduser p) = false)
    (hnb : ∀ p ∈ paths, ∀ i, i ≤ (REPO_DIR ++ ["backups", name]).length →
      expanduser p ≠ (REPO_DIR ++ ["backups", name]).take i) :
    (backupUtility env name paths excl dry s2).1 = true
    ∧ Ev.log ("No files were copied for " ++ name)
        ∈ (backupUtility env name paths excl dry s2).2.trace
    ∧ ∀ p ∈ paths, Ev.log ("Path does not exist: " ++ pathStr (expanduser p))
        ∈ (backupUtility env name paths excl dry s2).2.trace := by
  simp only [backupUtility]
  by_cases hd : ¬ dry = true
  · rw [if_pos hd]
    obtain ⟨h1, h2, h3, ⟨t, ht⟩, h5⟩ := backupLoop_missing env
      (REPO_DIR ++ ["backups", name]) excl dry
      (makedirs s2.fs (REPO_DIR ++ ["backups", name])) paths
      (true, 0, ⟨makedirs (emitLog s2 ("Backing up " ++ name)).fs
        (REPO_DIR ++ ["backups", name]),
        (emitLog s2 ("Backing up " ++ name)).trace⟩)
      (by simp [emitLog])
      (fun p hp => by
        rw [pathExists_makedirs_of_ne _ _ _ (hnb p hp)]
        exact hmiss p hp)
    rw [h2]
    rw [if_pos rfl]
    refine ⟨h1, by simp [emitLog], ?_⟩
    intro p hp
    simp only [emitLog]
    exact List.mem_append_left _ (h5 p hp)
  · rw [if_neg hd]
    obtain ⟨h1, h2, h3, ⟨t, ht⟩, h5⟩ := backupLoop_missing env
      (REPO_DIR ++ ["backups", name]) excl dry s2.fs paths
      (true, 0, emitLog s2 ("Backing up " ++ name))
      (by simp [emitLog])
      hmiss
    rw [h2]
    rw [if_pos rfl]
    refine ⟨h1, by simp [emitLog], ?_⟩
    intro p hp
    simp only [emitLog]
    exact List.mem_append_left _ (h5 p hp)

end IConfig

namespace IConfig

theorem syncUtilityStep_missing_no_failure (env : Env) (cfg : Config)
    (dry : Bool) (acc : LoopAcc) (u : String) (ucfg : UtilCfg)
    (heq : lookupUtil cfg.utilities u = some ucfg)
    (hnf : u ≠ "fonts")
    (hmiss : ∀ p ∈ ucfg.paths, pathExists acc.st.fs (expanduser p) = false)
    (hnb : ∀ p ∈ ucfg.paths, ∀ i, i ≤ (REPO_DIR ++ ["backups", u]).length →
      expanduser p ≠ (REPO_DIR ++ ["backups", u]).take i) :
    (syncUtilityStep env cfg dry acc u).failures = acc.failures := by
  simp only [syncUtilityStep, heq]
  simp only [if_neg hnf]
  have hSfs : (emitLog (getDirectorySize env ["dummy"]
      (sizeFromPaths env ucfg.paths ((0, []), acc.st)).2).2
      ((if dry = true then "Would backup " else "Backing up ")
        ++ u ++ " (" ++ humanStr (sizeFromPaths env ucfg.paths ((0, []), acc.st)).1.1
        ++ ")...")).fs = acc.st.fs := by
    simp only [emitLog]
    rw [fs_getDirectorySize, fs_sizeFromPaths]
  have hb := (backupUtility_missing env u ucfg.paths ucfg.excludePatterns dry
    (emitLog (getDirectorySize env ["dummy"]
      (sizeFromPaths env ucfg.paths ((0, []), acc.st)).2).2
      ((if dry = true then "Would backup " else "Backing up ")
        ++ u ++ " (" ++ humanStr (sizeFromPaths env ucfg.paths ((0, []), acc.st)).1.1
        ++ ")..."))
    (by rw [hSfs]; exact hmiss) hnb).1
  rw [hb]
  simp

end IConfig

namespace IConfig

/-- C5: a utility one of whose configured source paths does not exist is
skipped with a warning and does not fail the sync: when none of its paths
exist, backup_utility logs a per-path warning and the zero-files warning
and still returns success; the per-utility loop of perform_sync records no
failure for it; and the loop is a plain fold that always goes on to process
the remaining enabled utilities from the state left behind. -/
theorem c5_missing_source_skipped (env : Env) (cfg : Config) (dry : Bool)
    (name : String) (paths : List Path) (excl : List String) :
    (∀ s2 : St, (∀ p ∈ paths, pathExists s2.fs (expanduser p) = false) →
      (∀ p ∈ paths, ∀ i, i ≤ (REPO_DIR ++ ["backups", name]).length →
        expanduser p ≠ (REPO_DIR ++ ["backups", name]).take i) →
      (backupUtility env name paths excl dry s2).1 = true
      ∧ Ev.log ("No files were copied for " ++ name)
          ∈ (backupUtility env name paths excl dry s2).2.trace
      ∧ ∀ p ∈ paths, Ev.log ("Path does not exist: " ++ pathStr (expanduser p))
          ∈ (backupUtility env name paths excl dry s2).2.trace)
    ∧ (∀ (acc : LoopAcc) (ucfg : UtilCfg),
        lookupUtil cfg.utilities name = some ucfg → name ≠ "fonts" →
        (∀ p ∈ ucfg.paths, pathExists acc.st.fs (expanduser p) = false) →
        (∀ p ∈ ucfg.paths, ∀ i, i ≤ (REPO_DIR ++ ["backups", name]).length →
          expanduser p ≠ (REPO_DIR ++ ["backups", name]).take i) →
        (syncUtilityStep env cfg dry acc name).failures = acc.failures)
    ∧ (∀ (init : LoopAcc) (us1 us2 : List String),
        (us1 ++ us2).foldl (syncUtilityStep env cfg dry) init
          = us2.foldl (syncUtilityStep env cfg dry)
              (us1.foldl (syncUtilityStep env cfg dry) init)) := by
  refine ⟨?_, ?_, ?_⟩
  · intro s2 hmiss hnb
    exact backupUtility_missing env name paths excl dry s2 hmiss hnb
  · intro acc ucfg heq hnf hmiss hnb
    exact syncUtilityStep_missing_no_failure env cfg dry acc name ucfg heq hnf hmiss hnb
  · intro init us1 us2
    exact List.foldl_append _ _ _ _

/-- Witness for C5: the git utility with its single source path absent. -/
theorem c5_missing_source_skipped_witness :
    (∀ p ∈ ([["~", ".gitconfig"]] : List Path),
      pathExists ([] : FS) (expanduser p) = false)
    ∧ (backupUtility env0 "git" [["~", ".gitconfig"]] [] false ⟨[], []⟩).1 = true :=
  ⟨by decide,
   ((c5_missing_source_skipped env0 cfg0 false "git" [["~", ".gitconfig"]] []).1
      ⟨[], []⟩ (by decide) (by decide)).1⟩

end IConfig
namespace IConfig

theorem c8_tail (env : Env) (cp : Bool × St) (A B : String) :
    (((if ¬ cp.1 = true then (false, cp.2)
      else (true, emitLog (emitLog (updateLastSyncTime env cp.2).2 A) B)) : Bool × St)).1 = true →
    fsGet (((if ¬ cp.1 = true then (false, cp.2)
      else (true, emitLog (emitLog (updateLastSyncTime env cp.2).2 A) B)) : Bool × St)).2.fs
      LAST_SYNC_FILE = some (Node.file env.now) := by
  by_cases hc : ¬ cp.1 = true
  · rw [if_pos hc]
    intro h
    exact absurd h (by simp)
  · rw [if_neg hc]
    intro _
    simp [emitLog, updateLastSyncTime, fsSet, fsGet]

/-- C8 amended: every non-dry-run sync with at least one enabled utility
that completes successfully rewrites the last-sync timestamp file with the
current time, and a dry-run sync never rewrites it.  (A successful non-dry
sync with no enabled utilities returns early without rewriting it; see the
counterexample.) -/
theorem c8_last_sync_amended (env : Env) (cfg : Config) (s : St) :
    (cfg.dryRun = false → getEnabledUtilities cfg ≠ [] →
      (performSync env cfg s).1 = true →
      fsGet (performSync env cfg s).2.fs LAST_SYNC_FILE = some (Node.file env.now))
    ∧ (cfg.dryRun = true →
      fsGet (performSync env cfg s).2.fs LAST_SYNC_FILE = fsGet s.fs LAST_SYNC_FILE) := by
  constructor
  · intro hdry hne
    simp only [performSync, hdry, Bool.false_eq_true, if_false, ite_false,
      not_false_iff, if_true, ite_true]
    by_cases hp : ¬ (performPreflightChecks env cfg
        (emitLog s "Starting sync operation")).1 = true
    · rw [if_pos hp]
      intro h
      exact absurd h (by simp)
    · rw [if_neg hp]
      by_cases hu : cfg.repoUrl = ""
      · rw [if_pos hu]
        intro h
        exact absurd h (by simp)
      · rw [if_neg hu]
        rw [if_neg hne]
        exact c8_tail env _ _ _
  · intro hdry
    rw [(performSync_dry env cfg s hdry).1]

end IConfig

namespace IConfig

/-- C8 counterexample: a non-dry-run perform_sync with no enabled utilities
(here: every utility disabled) passes its checks, completes successfully
(returns True at src/iconfig.py line 1405), yet never rewrites the
last-sync timestamp file. -/
theorem c8_counterexample :
    Config.dryRun cfg0 = false
    ∧ (performSync env0 cfg0 ⟨[], []⟩).1 = true
    ∧ fsGet (performSync env0 cfg0 ⟨[], []⟩).2.fs LAST_SYNC_FILE = none := by
  refine ⟨rfl, ?_, ?_⟩ <;> decide

/-- A configuration with one enabled utility, for the C8 witness. -/
def cfg1 : Config :=
  { cfg0 with utilities :=
      [("git", { enabled := true, paths := [["~", ".gitconfig"]],
                 excludePatterns := [] })] }

/-- Witness for C8 as amended: with an enabled utility, a successful
non-dry run ends with the timestamp file rewritten. -/
theorem c8_last_sync_amended_witness :
    getEnabledUtilities cfg1 ≠ []
    ∧ fsGet (performSync env0 cfg1 ⟨[], []⟩).2.fs LAST_SYNC_FILE
        = some (Node.file "2025-01-01T00:00:00") :=
  ⟨by decide,
   (c8_last_sync_amended env0 cfg1 ⟨[], []⟩).1 rfl (by decide) (by decide)⟩

end IConfig
namespace IConfig

theorem fsGet_fsSet (fs : FS) (p q : Path) (n : Node) :
    fsGet (fsSet fs p n) q = if p = q then some n else fsGet fs q := rfl

theorem fsGet_append (A B : FS) (q : Path) :
    fsGet (A ++ B) q = match fsGet A q with
      | some n => some n
      | none => fsGet B q := by
  induction A with
  | nil => rfl
  | cons e rest ih =>
    by_cases h : e.1 = q
    · simp [fsGet, h]
    · simp only [List.cons_append, fsGet, if_neg h]
      exact ih

theorem fsGet_none_of_keys (A : FS) (q : Path) (h : ∀ e ∈ A, e.1 ≠ q) :
    fsGet A q = none := by
  induction A with
  | nil => rfl
  | cons e rest ih =>
    simp only [fsGet, if_neg (h e (List.mem_cons_self _ _))]
    exact ih (fun x hx => h x (List.mem_cons_of_mem _ hx))

theorem isPrefixOf_iff (l1 l2 : Path) : l1.isPrefixOf l2 = true ↔ l1 <+: l2 :=
  List.isPrefixOf_iff_prefix

theorem fsGet_copytree_out (fs : FS) (src dst q : Path) (h : ¬ dst <+: q) :
    fsGet (copytree fs src dst) q = fsGet fs q := by
  unfold copytree
  rw [fsGet_append]
  have : fsGet ((entriesUnder fs src).map
      (fun e => (dst ++ e.1.drop src.length, e.2))) q = none := by
    apply fsGet_none_of_keys
    intro e he hkey
    rcases List.mem_map.mp he with ⟨e0, _, rfl⟩
    exact h (hkey ▸ ⟨e0.1.drop src.length, rfl⟩)
  rw [this]

theorem fsGet_mapped_entries (fs : FS) (src dst : Path) (suf : Path) :
    fsGet ((entriesUnder fs src).map
      (fun e => (dst ++ e.1.drop src.length, e.2))) (dst ++ suf)
    = fsGet fs (src ++ suf) := by
  induction fs with
  | nil => rfl
  | cons e rest ih =>
    unfold entriesUnder at *
    by_cases hp : src.isPrefixOf e.1 = true
    · have hsp : src <+: e.1 := (isPrefixOf_iff _ _).mp hp
      obtain ⟨d, hd⟩ := hsp
      simp only [List.filter_cons, hp, if_true, List.map_cons]
      by_cases hk : e.1 = src ++ suf
      · have hds : e.1.drop src.length = suf := by
          rw [hk]; simp
        simp [fsGet, hds, hk]
      · have hne : dst ++ e.1.drop src.length ≠ dst ++ suf := by
          intro hcon
          apply hk
          have hds := List.append_cancel_left hcon
          rw [← hd] at hds ⊢
          rw [List.drop_left] at hds
          rw [hds]
        simp only [fsGet, if_neg hne, if_neg hk]
        exact ih
    · have hk : e.1 ≠ src ++ suf := by
        intro hcon
        apply hp ∘ (isPrefixOf_iff _ _).mpr
        rw [hcon]
        exact ⟨suf, rfl⟩
      simp only [List.filter_cons, hp, if_false, Bool.false_eq_true]
      simp only [fsGet, if_neg hk]
      exact ih

end IConfig

namespace IConfig

theorem fsGet_copytree_in (fs : FS) (src dst suf : Path) :
    fsGet (copytree fs src dst) (dst ++ suf)
    = match fsGet fs (src ++ suf) with
      | some n => some n
      | none => fsGet fs (dst ++ suf) := by
  unfold copytree
  rw [fsGet_append, fsGet_mapped_entries]

theorem fsGet_fsRemoveTree_out (fs : FS) (r q : Path) (h : ¬ r <+: q) :
    fsGet (fsRemoveTree fs r) q = fsGet fs q := by
  induction fs with
  | nil => rfl
  | cons e rest ih =>
    obtain ⟨ep, en⟩ := e
    show fsGet (List.filter _ ((ep, en) :: rest)) q = _
    rw [List.filter_cons]
    by_cases hr : r <+: ep
    · have hkq : ep ≠ q := fun hk => h (hk ▸ hr)
      have hdec : (decide ¬ (r.isPrefixOf ep = true)) = false := by
        simp [isPrefixOf_iff, hr]
      rw [hdec]
      simp only [Bool.false_eq_true, if_false]
      have ih2 : fsGet (List.filter
          (fun e => decide ¬ (List.isPrefixOf r e.1 = true)) rest) q
          = fsGet rest q := ih
      rw [ih2]
      simp [fsGet, hkq]
    · have hdec : (decide ¬ (r.isPrefixOf ep = true)) = true := by
        simp [isPrefixOf_iff, hr]
      rw [hdec]
      simp only [if_true]
      by_cases hk : ep = q
      · simp [fsGet, hk]
      · simp only [fsGet, if_neg hk]
        exact ih

end IConfig

namespace IConfig

theorem listdirFS_fsSet_ne (fs : FS) (p : Path) (n : Node) (d : Path)
    (h : p.dropLast ≠ d) : listdirFS (fsSet fs p n) d = listdirFS fs d := by
  simp [listdirFS, fsSet, List.filterMap_cons, if_neg h]

theorem listdirFS_append_none (A fs : FS) (d : Path)
    (h : ∀ e ∈ A, e.1.dropLast ≠ d) :
    listdirFS (A ++ fs) d = listdirFS fs d := by
  unfold listdirFS
  rw [List.filterMap_append]
  have : A.filterMap (fun e => if e.1.dropLast = d then e.1.getLast? else none)
      = [] := by
    induction A with
    | nil => rfl
    | cons e rest ih =>
      rw [List.filterMap_cons, if_neg (h e (List.mem_cons_self _ _))]
      exact ih (fun x hx => h x (List.mem_cons_of_mem _ hx))
  rw [this, List.nil_append]

theorem listdirFS_filter (fs : FS) (pred : Path × Node → Bool) (d : Path)
    (h : ∀ e ∈ fs, e.1.dropLast = d → pred e = true) :
    listdirFS (fs.filter pred) d = listdirFS fs d := by
  unfold listdirFS
  congr 1
  induction fs with
  | nil => rfl
  | cons e rest ih =>
    rw [List.filter_cons, List.filterMap_cons]
    by_cases hd : e.1.dropLast = d
    · rw [h e (List.mem_cons_self _ _) hd]
      simp only [if_true]
      rw [List.filterMap_cons, if_pos hd]
      rw [ih (fun x hx hxd => h x (List.mem_cons_of_mem _ hx) hxd)]
    · rw [if_neg hd]
      by_cases hp : pred e = true
      · rw [hp]
        simp only [if_true]
        rw [List.filterMap_cons, if_neg hd]
        exact ih (fun x hx hxd => h x (List.mem_cons_of_mem _ hx) hxd)
      · simp only [Bool.not_eq_true] at hp
        rw [hp]
        simp only [Bool.false_eq_true, if_false]
        exact ih (fun x hx hxd => h x (List.mem_cons_of_mem _ hx) hxd)

theorem listdirFS_copytree (fs : FS) (src dst d : Path)
    (h : ∀ suf, (dst ++ suf).dropLast ≠ d) :
    listdirFS (copytree fs src dst) d = listdirFS fs d := by
  unfold copytree
  apply listdirFS_append_none
  intro e he
  rcases List.mem_map.mp he with ⟨e0, _, rfl⟩
  exact h _

theorem listdirFS_copy2 (fs : FS) (src dst d : Path)
    (h1 : (dst ++ [lastComponent src]).dropLast ≠ d) (h2 : dst.dropLast ≠ d) :
    listdirFS (copy2 fs src dst) d = listdirFS fs d := by
  unfold copy2
  by_cases hd : isDirFS fs dst = true
  · rw [if_pos hd]
    exact listdirFS_fsSet_ne _ _ _ _ h1
  · rw [if_neg hd]
    exact listdirFS_fsSet_ne _ _ _ _ h2

theorem listdirFS_makedirs (fs : FS) (bp d : Path)
    (h : ∀ i, i ≤ bp.length → (bp.take i).dropLast ≠ d) :
    listdirFS (makedirs fs bp) d = listdirFS fs d := by
  unfold makedirs
  have main : ∀ (l : List Nat) (acc : FS), (∀ i ∈ l, (bp.take i).dropLast ≠ d) →
      listdirFS (l.foldl (fun acc i =>
        let pre := bp.take i
        if pathExists acc pre then acc else fsSet acc pre Node.dir) acc) d
      = listdirFS acc d := by
    intro l
    induction l with
    | nil => intro acc _; rfl
    | cons i rest ih =>
      intro acc hl
      rw [List.foldl_cons, ih _ (fun j hj => hl j (List.mem_cons_of_mem _ hj))]
      simp only []
      by_cases hp : pathExists acc (bp.take i) = true
      · rw [if_pos hp]
      · rw [if_neg hp]
        exact listdirFS_fsSet_ne _ _ _ _ (hl i (List.mem_cons_self _ _))
  refine main _ fs (fun i hi => h i ?_)
  have := List.mem_range.mp hi
  omega

theorem listdirFS_fsRemoveTree (fs : FS) (r d : Path)
    (h : ∀ e ∈ fs, e.1.dropLast = d → ¬ r <+: e.1) :
    listdirFS (fsRemoveTree fs r) d = listdirFS fs d := by
  apply listdirFS_filter
  intro e he hd
  simp only [decide_not]
  have := h e he hd
  simp [isPrefixOf_iff, this]

end IConfig

namespace IConfig

/-- The timestamped safety-backup directory of create_backup_before_restore
(src/iconfig.py lines 1063-1064). -/
def restoreBackupDir (env : Env) (name : String) : Path :=
  APP_DIR ++ ["restore_backups", name ++ "_" ++ env.nowStamp]

/-- os.path.relpath(p, HOME_DIR) for a path below the home directory. -/
def relHome (p : Path) : Path := p.drop HOME_DIR.length

theorem prefix_append_left {l1 l2 l3 : List String} (h : l1 <+: l2 ++ l3)
    (hl : l1.length ≤ l2.length) : l1 <+: l2 := by
  rw [List.prefix_iff_eq_take] at h ⊢
  rw [List.take_append_eq_append_take] at h
  rw [show l1.length - l2.length = 0 by omega, List.take_zero,
    List.append_nil] at h
  exact h

theorem take_of_pre {B L : List String} (h : B <+: L) {i : Nat}
    (hi : i ≤ B.length) : L.take i = B.take i := by
  obtain ⟨t, rfl⟩ := h
  rw [List.take_append_eq_append_take, show i - B.length = 0 by omega,
    List.take_zero, List.append_nil]

theorem prefix_take_of_ge {B L : List String} (h : B <+: L) {i : Nat}
    (hi : B.length ≤ i) : B <+: L.take i := by
  obtain ⟨t, rfl⟩ := h
  rw [List.take_append_eq_append_take, List.take_of_length_le (by omega)]
  exact List.prefix_append _ _

theorem home_len2 {e : Path} (he : HOME_DIR <+: e) (hne : e ≠ HOME_DIR) :
    2 ≤ e.length := by
  have h1 := he.length_le
  simp only [HOME_DIR, List.length_cons, List.length_nil] at h1
  by_contra hcon
  push_neg at hcon
  have hlen : HOME_DIR.length = e.length := by
    simp only [HOME_DIR, List.length_cons, List.length_nil]
    omega
  exact hne (he.eq_of_length hlen).symm

theorem exp_decomp {e : Path} (he : HOME_DIR <+: e) :
    HOME_DIR ++ relHome e = e := by
  obtain ⟨t, rfl⟩ := he
  simp [relHome]

theorem rel_ne_nil {e : Path} (he : HOME_DIR <+: e) (hne : e ≠ HOME_DIR) :
    relHome e ≠ [] := by
  intro h
  apply hne
  have := exp_decomp he
  rw [h, List.append_nil] at this
  exact this.symm

theorem dropLast_append_ne {B rel : List String} (h : rel ≠ []) :
    (B ++ rel).dropLast = B ++ rel.dropLast := by
  rw [List.dropLast_append_of_ne_nil]
  exact h

end IConfig

namespace IConfig

theorem app_prefix_B (env : Env) (name : String) :
    APP_DIR <+: restoreBackupDir env name := List.prefix_append _ _

theorem comparable_of_prefix_append {x y suf : Path} (h : x <+: y ++ suf) :
    x <+: y ∨ y <+: x :=
  List.prefix_or_prefix_of_prefix h (List.prefix_append _ _)

theorem relHome_append {a : Path} (ha : HOME_DIR <+: a) (c : Path) :
    relHome (a ++ c) = relHome a ++ c := by
  have hle : HOME_DIR.length ≤ a.length := ha.length_le
  simp only [relHome, List.drop_append_eq_append_drop,
    Nat.sub_eq_zero_of_le hle, List.drop_zero]

theorem rel_prefix_exp {a b : Path} (ha : HOME_DIR <+: a) (hb : HOME_DIR <+: b) :
    relHome a <+: relHome b ↔ a <+: b := by
  constructor
  · intro h
    rw [← exp_decomp ha, ← exp_decomp hb]
    exact (List.prefix_append_right_inj _).mpr h
  · rintro ⟨c, rfl⟩
    rw [relHome_append ha]
    exact List.prefix_append _ _

theorem q_safe (env : Env) (name : String) {e suf : Path}
    (h2 : 2 ≤ e.length) (hap : ¬ APP_DIR <+: e) :
    (¬ ∃ i, i ≤ (restoreBackupDir env name).length
      ∧ e ++ suf = (restoreBackupDir env name).take i)
    ∧ ¬ (restoreBackupDir env name) <+: (e ++ suf) := by
  have hq2 : 2 ≤ (e ++ suf).length := by
    rw [List.length_append]; omega
  have happ2 : APP_DIR.length = 2 := rfl
  have hnapp : ¬ APP_DIR <+: (e ++ suf) := by
    intro h
    exact hap (prefix_append_left h (by omega))
  constructor
  · rintro ⟨i, hi, heq⟩
    rcases Nat.lt_or_ge i 2 with hlt | hge
    · have hlen : (e ++ suf).length = i := by
        rw [heq, List.length_take]
        simp only [restoreBackupDir] at hi ⊢
        omega
      omega
    · exact hnapp (heq ▸ prefix_take_of_ge (app_prefix_B env name) (by omega))
  · intro h
    exact hnapp ((app_prefix_B env name).trans h)

/-- The loop body of create_backup_before_restore (src/iconfig.py lines
1069-1080), named for the proofs below; definitionally equal to the inline
fold body of createBackupBeforeRestore. -/
def cbStep (env : Env) (name : String) (s2 : St) (path : Path) : St :=
  let expanded := expanduser path
  if pathExists s2.fs expanded then
    let bp := restoreBackupDir env name ++ relHome expanded
    let s3 := { s2 with fs := makedirs s2.fs bp.dropLast }
    if isDirFS s3.fs expanded then
      { s3 with fs := copytree s3.fs expanded bp }
    else
      { s3 with fs := copy2 s3.fs expanded bp }
  else s2

theorem createBackup_eq (env : Env) (name : String) (destPaths : List Path)
    (s : St) :
    createBackupBeforeRestore env name destPaths s
    = (some (restoreBackupDir env name),
       emitLog (destPaths.foldl (cbStep env name)
         { s with fs := makedirs s.fs (restoreBackupDir env name) })
         ("Created backup for " ++ name)) := rfl

theorem cbFold_preserves (env : Env) (name : String) :
    ∀ (l : List Path) (cur : St) (q : Path),
      (∀ r ∈ l, ¬ (restoreBackupDir env name ++ relHome (expanduser r)) <+: q
        ∧ ¬ q <+: (restoreBackupDir env name ++ relHome (expanduser r)).dropLast) →
      fsGet (l.foldl (cbStep env name) cur).fs q = fsGet cur.fs q := by
  intro l
  induction l with
  | nil => intro cur q _; rfl
  | cons r rest ih =>
    intro cur q hq
    rw [List.foldl_cons,
      ih _ _ (fun x hx => hq x (List.mem_cons_of_mem _ hx))]
    obtain ⟨h1, h2⟩ := hq r (List.mem_cons_self _ _)
    simp only [cbStep]
    by_cases hex : pathExists cur.fs (expanduser r) = true
    · rw [if_pos hex]
      have hmk : ∀ i, i ≤ ((restoreBackupDir env name
          ++ relHome (expanduser r)).dropLast).length →
          q ≠ ((restoreBackupDir env name ++ relHome (expanduser r)).dropLast).take i := by
        intro i hi heq
        exact h2 (heq ▸ List.take_prefix i _)
      by_cases hdir : isDirFS (makedirs cur.fs
          (restoreBackupDir env name ++ relHome (expanduser r)).dropLast)
          (expanduser r) = true
      · rw [if_pos hdir]
        simp only []
        rw [fsGet_copytree_out _ _ _ _ h1]
        exact fsGet_makedirs_of_ne _ _ _ hmk
      · rw [if_neg hdir]
        simp only [copy2]
        by_cases hdst : isDirFS (makedirs cur.fs
            (restoreBackupDir env name ++ relHome (expanduser r)).dropLast)
            (restoreBackupDir env name ++ relHome (expanduser r)) = true
        · rw [if_pos hdst]
          rw [fsGet_fsSet]
          rw [if_neg (show ¬ _ by intro hcon; exact h1 (hcon ▸ List.prefix_append _ _))]
          exact fsGet_makedirs_of_ne _ _ _ hmk
        · rw [if_neg hdst]
          rw [fsGet_fsSet]
          rw [if_neg (show ¬ _ by intro hcon; exact h1 (hcon ▸ List.prefix_rfl))]
          exact fsGet_makedirs_of_ne _ _ _ hmk
    · rw [if_neg hex]

end IConfig

namespace IConfig

/-- q is outside the backup-dir footprint: not a prefix-stage of B and not
inside B. -/
def SafeQ (B q : Path) : Prop :=
  (¬ ∃ i, i ≤ B.length ∧ q = B.take i) ∧ ¬ B <+: q

theorem safeQ_of (env : Env) (name : String) {e : Path} (suf : Path)
    (h2 : 2 ≤ e.length) (hap : ¬ APP_DIR <+: e) :
    SafeQ (restoreBackupDir env name) (e ++ suf) :=
  q_safe env name h2 hap

theorem safeQ_single (env : Env) (name : String) {e : Path}
    (h2 : 2 ≤ e.length) (hap : ¬ APP_DIR <+: e) :
    SafeQ (restoreBackupDir env name) e := by
  have h := safeQ_of env name [] h2 hap
  rwa [List.append_nil] at h

theorem safe_mk_short {B q : Path} (h : SafeQ B q) :
    ∀ i, i ≤ B.length → q ≠ B.take i :=
  fun i hi heq => h.1 ⟨i, hi, heq⟩

theorem safe_mk {B w q : Path} (h : SafeQ B q) :
    ∀ i, i ≤ (B ++ w).length → q ≠ (B ++ w).take i := by
  intro i hi heq
  rcases le_or_lt i B.length with hle | hgt
  · rw [take_of_pre (List.prefix_append B w) hle] at heq
    exact h.1 ⟨i, hle, heq⟩
  · exact h.2 (heq ▸ prefix_take_of_ge (List.prefix_append B w) (Nat.le_of_lt hgt))

theorem safe_not_touch {B w q : Path} (h : SafeQ B q) :
    ¬ (B ++ w) <+: q ∧ ¬ q <+: (B ++ w).dropLast := by
  constructor
  · intro hc
    exact h.2 ((List.prefix_append B w).trans hc)
  · intro hc
    have hq : q <+: B ++ w := hc.trans (List.dropLast_prefix _)
    have htake : (B ++ w).take q.length = q :=
      (List.prefix_iff_eq_take.mp hq).symm
    exact safe_mk h q.length hq.length_le htake.symm

theorem tgt_prefix_iff (env : Env) (name : String) {a b : Path}
    (ha : HOME_DIR <+: a) (hb : HOME_DIR <+: b) :
    (restoreBackupDir env name ++ relHome a
      <+: restoreBackupDir env name ++ relHome b) ↔ a <+: b :=
  (List.prefix_append_right_inj _).trans (rel_prefix_exp ha hb)

theorem tgt_cond (env : Env) (name : String) {a p : Path} (suf : Path)
    (ha : HOME_DIR <+: a) (hp : HOME_DIR <+: p)
    (h1 : ¬ a <+: p) (h2 : ¬ p <+: a) :
    ¬ (restoreBackupDir env name ++ relHome a)
        <+: (restoreBackupDir env name ++ relHome p ++ suf)
    ∧ ¬ (restoreBackupDir env name ++ relHome p ++ suf)
        <+: (restoreBackupDir env name ++ relHome a).dropLast := by
  constructor
  · intro h
    rcases comparable_of_prefix_append h with hc | hc
    · exact h1 ((tgt_prefix_iff env name ha hp).mp hc)
    · exact h2 ((tgt_prefix_iff env name hp ha).mp hc)
  · intro h
    have hpa : (restoreBackupDir env name ++ relHome p)
        <+: (restoreBackupDir env name ++ relHome a) :=
      (List.prefix_append _ _).trans (h.trans (List.dropLast_prefix _))
    exact h2 ((tgt_prefix_iff env name hp ha).mp hpa)

theorem bP_len (name : String) :
    (REPO_DIR ++ ["backups", name]).length = 5 := rfl

theorem B_len (env : Env) (name : String) :
    (restoreBackupDir env name).length = 4 := rfl

theorem bP_B_incomp (env : Env) (name : String) :
    ¬ restoreBackupDir env name <+: (REPO_DIR ++ ["backups", name])
    ∧ ¬ (REPO_DIR ++ ["backups", name]) <+: restoreBackupDir env name := by
  constructor
  · intro h
    have htake := List.prefix_iff_eq_take.mp h
    rw [B_len] at htake
    simp [restoreBackupDir, APP_DIR, HOME_DIR, REPO_DIR, List.take] at htake
  · intro h
    have := h.length_le
    rw [bP_len, B_len] at this
    omega

theorem app_prefix_bP (name : String) :
    APP_DIR <+: (REPO_DIR ++ ["backups", name]) := by
  show APP_DIR <+: (APP_DIR ++ ["repo"]) ++ ["backups", name]
  rw [List.append_assoc]
  exact List.prefix_append _ _

end IConfig

namespace IConfig

theorem isDirFS_congr {fs fs' : FS} {p p' : Path}
    (h : fsGet fs p = fsGet fs' p') : isDirFS fs p = isDirFS fs' p' := by
  unfold isDirFS
  rw [h]

theorem pathExists_congr {fs fs' : FS} {p p' : Path}
    (h : fsGet fs p = fsGet fs' p') : pathExists fs p = pathExists fs' p' := by
  unfold pathExists
  rw [h]

theorem fileContent_congr {fs fs' : FS} {p p' : Path}
    (h : fsGet fs p = fsGet fs' p') : fileContent fs p = fileContent fs' p' := by
  unfold fileContent
  rw [h]

theorem bP_not_prefix_Bw (env : Env) (name : String) (w : Path) :
    ¬ (REPO_DIR ++ ["backups", name]) <+: (restoreBackupDir env name ++ w) := by
  intro h
  rcases List.prefix_or_prefix_of_prefix h (List.prefix_append _ _) with hc | hc
  · exact (bP_B_incomp env name).2 hc
  · exact (bP_B_incomp env name).1 hc

theorem ne_bP_of_prefix_Bw (env : Env) (name : String) (w : Path) {v : Path}
    (hv : v <+: restoreBackupDir env name ++ w) :
    v ≠ REPO_DIR ++ ["backups", name] := by
  intro hcon
  exact bP_not_prefix_Bw env name w (hcon ▸ hv)

theorem cbStep_listdir (env : Env) (name : String) (cur : St) (r : Path) :
    listdirFS (cbStep env name cur r).fs (REPO_DIR ++ ["backups", name])
    = listdirFS cur.fs (REPO_DIR ++ ["backups", name]) := by
  simp only [cbStep]
  by_cases hex : pathExists cur.fs (expanduser r) = true
  · rw [if_pos hex]
    have hmk : listdirFS (makedirs cur.fs
        (restoreBackupDir env name ++ relHome (expanduser r)).dropLast)
        (REPO_DIR ++ ["backups", name])
        = listdirFS cur.fs (REPO_DIR ++ ["backups", name]) := by
      apply listdirFS_makedirs
      intro i hi
      apply ne_bP_of_prefix_Bw env name (relHome (expanduser r))
      exact (List.dropLast_prefix _).trans
        ((List.take_prefix _ _).trans (List.dropLast_prefix _))
    by_cases hdir : isDirFS (makedirs cur.fs
        (restoreBackupDir env name ++ relHome (expanduser r)).dropLast)
        (expanduser r) = true
    · rw [if_pos hdir]
      show listdirFS (copytree _ _ _) _ = _
      rw [listdirFS_copytree]
      · exact hmk
      · intro suf
        apply ne_bP_of_prefix_Bw env name
          (relHome (expanduser r) ++ suf)
        rw [← List.append_assoc]
        exact List.dropLast_prefix _
    · rw [if_neg hdir]
      show listdirFS (copy2 _ _ _) _ = _
      rw [listdirFS_copy2]
      · exact hmk
      · apply ne_bP_of_prefix_Bw env name
          (relHome (expanduser r) ++ [lastComponent (expanduser r)])
        rw [← List.append_assoc]
        exact List.dropLast_prefix _
      · exact ne_bP_of_prefix_Bw env name _ (List.dropLast_prefix _)
  · rw [if_neg hex]

theorem cbFold_listdir (env : Env) (name : String) :
    ∀ (l : List Path) (cur : St),
      listdirFS (l.foldl (cbStep env name) cur).fs
        (REPO_DIR ++ ["backups", name])
      = listdirFS cur.fs (REPO_DIR ++ ["backups", name]) := by
  intro l
  induction l with
  | nil => intro cur; rfl
  | cons r rest ih =>
    intro cur
    rw [List.foldl_cons, ih, cbStep_listdir]

end IConfig

namespace IConfig

theorem cbStep_pres (env : Env) (name : String) (cur : St) (r : Path)
    {q : Path} (hq : SafeQ (restoreBackupDir env name) q) :
    fsGet (cbStep env name cur r).fs q = fsGet cur.fs q := by
  have h := cbFold_preserves env name [r] cur q (by
    intro x hx
    rw [List.mem_singleton] at hx
    subst hx
    exact safe_not_touch hq)
  exact h

theorem cbFold_subtree (env : Env) (name : String) :
    ∀ (l : List Path) (cur : St),
      (∀ p ∈ l, HOME_DIR <+: expanduser p ∧ ¬ APP_DIR <+: expanduser p
        ∧ expanduser p ≠ HOME_DIR) →
      List.Pairwise (fun a b => ¬ expanduser a <+: expanduser b
        ∧ ¬ expanduser b <+: expanduser a) l →
      (∀ p ∈ l, ∀ suf, fsGet cur.fs
        (restoreBackupDir env name ++ relHome (expanduser p) ++ suf) = none) →
      (∀ p ∈ l, isDirFS cur.fs (expanduser p) = false →
        ∀ suf, suf ≠ [] → fsGet cur.fs (expanduser p ++ suf) = none) →
      ∀ p ∈ l, pathExists cur.fs (expanduser p) = true →
        ∀ suf, fsGet (l.foldl (cbStep env name) cur).fs
          (restoreBackupDir env name ++ relHome (expanduser p) ++ suf)
        = fsGet cur.fs (expanduser p ++ suf) := by
  intro l
  induction l with
  | nil =>
    intro cur _ _ _ _ p hp
    exact absurd hp (List.not_mem_nil _)
  | cons r rest ih =>
    intro cur hpaths hnest hB hfile p hp hex suf
    obtain ⟨hHr, hAr, hNr⟩ := hpaths r (List.mem_cons_self _ _)
    have h2r : 2 ≤ (expanduser r).length := home_len2 hHr hNr
    rw [List.foldl_cons]
    rcases List.mem_cons.mp hp with rfl | hpr
    · -- head: the step copies the subtree, the rest of the fold leaves it alone
      have hrest : fsGet (rest.foldl (cbStep env name)
            (cbStep env name cur p)).fs
            (restoreBackupDir env name ++ relHome (expanduser p) ++ suf)
          = fsGet (cbStep env name cur p).fs
            (restoreBackupDir env name ++ relHome (expanduser p) ++ suf) := by
        apply cbFold_preserves
        intro x hx
        have hx1 := (List.pairwise_cons.mp hnest).1 x hx
        obtain ⟨hHx, _, _⟩ := hpaths x (List.mem_cons_of_mem _ hx)
        exact tgt_cond env name suf hHx hHr hx1.2 hx1.1
      rw [hrest]
      simp only [cbStep]
      rw [if_pos hex]
      have hrel : relHome (expanduser p) ≠ [] := rel_ne_nil hHr hNr
      rw [dropLast_append_ne hrel]
      have hmk_main : fsGet (makedirs cur.fs
            (restoreBackupDir env name ++ (relHome (expanduser p)).dropLast))
            (expanduser p ++ suf)
          = fsGet cur.fs (expanduser p ++ suf) :=
        fsGet_makedirs_of_ne _ _ _ (safe_mk (safeQ_of env name suf h2r hAr))
      have hrl1 : 1 ≤ (relHome (expanduser p)).length :=
        List.length_pos.mpr hrel
      have hnone : ∀ suf2, fsGet (makedirs cur.fs
            (restoreBackupDir env name ++ (relHome (expanduser p)).dropLast))
            (restoreBackupDir env name ++ relHome (expanduser p) ++ suf2)
          = none := by
        intro suf2
        rw [fsGet_makedirs_of_ne]
        · exact hB p (List.mem_cons_self _ _) suf2
        · intro i hi heq
          have hlen := congrArg List.length heq
          simp only [List.length_append, List.length_take,
            List.length_dropLast] at hlen
          omega
      by_cases hdir : isDirFS (makedirs cur.fs
          (restoreBackupDir env name ++ (relHome (expanduser p)).dropLast))
          (expanduser p) = true
      · rw [if_pos hdir]
        show fsGet (copytree _ _ _) _ = _
        rw [fsGet_copytree_in, hmk_main]
        cases hv : fsGet cur.fs (expanduser p ++ suf) with
        | some n => rfl
        | none => exact hnone suf
      · rw [if_neg hdir]
        have hget : fsGet (makedirs cur.fs
              (restoreBackupDir env name ++ (relHome (expanduser p)).dropLast))
              (expanduser p)
            = fsGet cur.fs (expanduser p) :=
          fsGet_makedirs_of_ne _ _ _ (safe_mk (safeQ_single env name h2r hAr))
        have hd2 : isDirFS cur.fs (expanduser p) = false := by
          rw [← isDirFS_congr hget]
          exact eq_false_of_ne_true hdir
        have hdstnone : fsGet (makedirs cur.fs
              (restoreBackupDir env name ++ (relHome (expanduser p)).dropLast))
              (restoreBackupDir env name ++ relHome (expanduser p)) = none := by
          have h := hnone []
          rwa [List.append_nil] at h
        have hdirdst : ¬ isDirFS (makedirs cur.fs
              (restoreBackupDir env name ++ (relHome (expanduser p)).dropLast))
              (restoreBackupDir env name ++ relHome (expanduser p)) = true := by
          simp [isDirFS, hdstnone]
        show fsGet (copy2 _ _ _) _ = _
        simp only [copy2]
        rw [if_neg hdirdst, fsGet_fsSet]
        by_cases hsuf : suf = []
        · subst hsuf
          rw [List.append_nil, if_pos rfl, List.append_nil]
          cases hv : fsGet cur.fs (expanduser p) with
          | none =>
            rw [pathExists, hv] at hex
            simp at hex
          | some n =>
            cases n with
            | dir => simp [isDirFS, hv] at hd2
            | file c => simp [fileContent, hget, hv]
        · rw [if_neg (by
            intro hcon
            apply hsuf
            have hlen := congrArg List.length hcon
            simp only [List.length_append] at hlen
            exact List.length_eq_zero.mp (by omega))]
          rw [hnone suf]
          exact (hfile p (List.mem_cons_self _ _) hd2 suf hsuf).symm
    · -- tail: transfer the hypotheses across the head step and recurse
      obtain ⟨hHp, hAp, hNp⟩ := hpaths p (List.mem_cons_of_mem _ hpr)
      have h2p : 2 ≤ (expanduser p).length := home_len2 hHp hNp
      have hB' : ∀ x ∈ rest, ∀ suf2,
          fsGet (cbStep env name cur r).fs
            (restoreBackupDir env name ++ relHome (expanduser x) ++ suf2)
          = none := by
        intro x hx suf2
        have hx1 := (List.pairwise_cons.mp hnest).1 x hx
        obtain ⟨hHx, _, _⟩ := hpaths x (List.mem_cons_of_mem _ hx)
        have hstep := cbFold_preserves env name [r] cur
          (restoreBackupDir env name ++ relHome (expanduser x) ++ suf2) (by
            intro y hy
            rw [List.mem_singleton] at hy
            subst hy
            exact tgt_cond env name suf2 hHr hHx hx1.1 hx1.2)
        have hstep2 : fsGet (cbStep env name cur r).fs
            (restoreBackupDir env name ++ relHome (expanduser x) ++ suf2)
            = fsGet cur.fs
              (restoreBackupDir env name ++ relHome (expanduser x) ++ suf2) :=
          hstep
        rw [hstep2]
        exact hB x (List.mem_cons_of_mem _ hx) suf2
      have hfile' : ∀ x ∈ rest, isDirFS (cbStep env name cur r).fs
            (expanduser x) = false →
          ∀ suf2, suf2 ≠ [] →
            fsGet (cbStep env name cur r).fs (expanduser x ++ suf2) = none := by
        intro x hx hdx suf2 hs2
        obtain ⟨hHx, hAx, hNx⟩ := hpaths x (List.mem_cons_of_mem _ hx)
        have h2x : 2 ≤ (expanduser x).length := home_len2 hHx hNx
        rw [cbStep_pres env name cur r (safeQ_of env name suf2 h2x hAx)]
        apply hfile x (List.mem_cons_of_mem _ hx) _ suf2 hs2
        rw [← isDirFS_congr
          (cbStep_pres env name cur r (safeQ_single env name h2x hAx))]
        exact hdx
      have hex' : pathExists (cbStep env name cur r).fs (expanduser p) = true := by
        rw [pathExists_congr
          (cbStep_pres env name cur r (safeQ_single env name h2p hAp))]
        exact hex
      have hmain := ih (cbStep env name cur r)
        (fun x hx => hpaths x (List.mem_cons_of_mem _ hx))
        (List.pairwise_cons.mp hnest).2 hB' hfile' p hpr hex' suf
      rw [hmain]
      exact cbStep_pres env name cur r (safeQ_of env name suf h2p hAp)

end IConfig

namespace IConfig

theorem lastComponent_concat (l : List String) (a : String) :
    lastComponent (l ++ [a]) = a := by
  simp [lastComponent, List.getLast?_concat]

theorem app_dest_contra {dest y : Path} (hd2 : 2 ≤ dest.length)
    (hnd : ¬ APP_DIR <+: dest) (hAy : APP_DIR <+: y) (hdy : dest <+: y) :
    False := by
  rcases List.prefix_or_prefix_of_prefix hAy hdy with hc | hc
  · exact hnd hc
  · have hlen : dest.length = APP_DIR.length := by
      have := hc.length_le
      have h2 : APP_DIR.length = 2 := rfl
      omega
    exact hnd (hc.eq_of_length hlen ▸ List.prefix_rfl)

theorem not_dest_prefix_child (name : String) {dest y : Path}
    (hd2 : 2 ≤ dest.length) (hnd : ¬ APP_DIR <+: dest)
    (hy : y.dropLast = REPO_DIR ++ ["backups", name]) :
    ¬ dest <+: y := by
  intro h
  have hAy : APP_DIR <+: y :=
    (app_prefix_bP name).trans (hy ▸ List.dropLast_prefix y)
  exact app_dest_contra hd2 hnd hAy h

theorem dest_concat_dropLast_ne (name : String) {dest : Path}
    (hd2 : 2 ≤ dest.length) (hnd : ¬ APP_DIR <+: dest) :
    ∀ suf, (dest ++ suf).dropLast ≠ REPO_DIR ++ ["backups", name] := by
  intro suf h
  by_cases hs : suf = []
  · subst hs
    rw [List.append_nil] at h
    exact hnd ((h ▸ app_prefix_bP name).trans (List.dropLast_prefix dest))
  · rw [dropLast_append_ne hs] at h
    have hdb : dest <+: REPO_DIR ++ ["backups", name] :=
      h ▸ List.prefix_append _ _
    exact app_dest_contra hd2 hnd (app_prefix_bP name) hdb

theorem not_dest_eq_of_app {dest q : Path} (hnd : ¬ APP_DIR <+: dest)
    (hq : APP_DIR <+: q) : dest ≠ q := by
  intro h
  exact hnd (h ▸ hq)

theorem not_dest_prefix_of_app {dest q : Path} (hd2 : 2 ≤ dest.length)
    (hnd : ¬ APP_DIR <+: dest) (hq : APP_DIR <+: q) : ¬ dest <+: q :=
  fun h => app_dest_contra hd2 hnd hq h

/-- The inner loop body of restore_utility over the entries of a utility's
backup directory (src/iconfig.py lines 1117-1134); definitionally equal to
the inline fold body of restoreOnePath. -/
def rStep (backupPath baseDir : Path) (a : Nat × St) (item : String) :
    Nat × St :=
  let itemPath := backupPath ++ [item]
  let destItemPath := baseDir ++ [item]
  if isDirFS a.2.fs itemPath then
    let s2 := if pathExists a.2.fs destItemPath then
        { a.2 with fs := fsRemoveTree a.2.fs destItemPath }
      else a.2
    (a.1 + 1, { s2 with fs := copytree s2.fs itemPath destItemPath })
  else
    (a.1 + 1, { a.2 with fs := copy2 a.2.fs itemPath baseDir })

theorem restoreOnePath_eq (backupPath : Path) (acc : Nat × St) (path : Path) :
    restoreOnePath backupPath acc path
    = (if isDirFS (makedirs acc.2.fs (expanduser path).dropLast) backupPath then
        (listdirFS (makedirs acc.2.fs (expanduser path).dropLast) backupPath).foldl
          (rStep backupPath (expanduser path).dropLast)
          (acc.1, { acc.2 with fs := makedirs acc.2.fs (expanduser path).dropLast })
      else
        (acc.1 + 1,
          { acc.2 with
            fs := copy2 (makedirs acc.2.fs (expanduser path).dropLast)
              backupPath (expanduser path) })) := rfl

theorem rStep_pres (name : String) {base : Path} (item : String)
    (hAb : ¬ APP_DIR <+: base) (hb1 : 1 ≤ base.length)
    (hitem : ¬ APP_DIR <+: (base ++ [item])) (a : Nat × St) :
    (∀ q, APP_DIR <+: q →
      fsGet (rStep (REPO_DIR ++ ["backups", name]) base a item).2.fs q
      = fsGet a.2.fs q)
    ∧ listdirFS (rStep (REPO_DIR ++ ["backups", name]) base a item).2.fs
        (REPO_DIR ++ ["backups", name])
      = listdirFS a.2.fs (REPO_DIR ++ ["backups", name]) := by
  have hd2 : 2 ≤ (base ++ [item]).length := by
    rw [List.length_append]
    simp
    omega
  simp only [rStep]
  by_cases hdi : isDirFS a.2.fs ((REPO_DIR ++ ["backups", name]) ++ [item]) = true
  · rw [if_pos hdi]
    by_cases hpe : pathExists a.2.fs (base ++ [item]) = true
    · rw [if_pos hpe]
      constructor
      · intro q hq
        show fsGet (copytree _ _ _) q = _
        rw [fsGet_copytree_out _ _ _ _ (not_dest_prefix_of_app hd2 hitem hq)]
        exact fsGet_fsRemoveTree_out _ _ _ (not_dest_prefix_of_app hd2 hitem hq)
      · show listdirFS (copytree _ _ _) _ = _
        rw [listdirFS_copytree _ _ _ _ (dest_concat_dropLast_ne name hd2 hitem)]
        exact listdirFS_fsRemoveTree _ _ _
          (fun e _ he => not_dest_prefix_child name hd2 hitem he)
    · rw [if_neg hpe]
      constructor
      · intro q hq
        show fsGet (copytree _ _ _) q = _
        exact fsGet_copytree_out _ _ _ _ (not_dest_prefix_of_app hd2 hitem hq)
      · show listdirFS (copytree _ _ _) _ = _
        exact listdirFS_copytree _ _ _ _ (dest_concat_dropLast_ne name hd2 hitem)
  · rw [if_neg hdi]
    have hbase_ne : base ≠ REPO_DIR ++ ["backups", name] := by
      intro h
      exact hAb (h ▸ app_prefix_bP name)
    constructor
    · intro q hq
      show fsGet (copy2 _ _ _) q = _
      simp only [copy2, lastComponent_concat]
      by_cases hdb : isDirFS a.2.fs base = true
      · rw [if_pos hdb, fsGet_fsSet, if_neg (not_dest_eq_of_app hitem hq)]
      · rw [if_neg hdb, fsGet_fsSet,
          if_neg (not_dest_eq_of_app (fun h => hAb h) hq)]
    · show listdirFS (copy2 _ _ _) _ = _
      rw [listdirFS_copy2]
      · rw [lastComponent_concat, List.dropLast_concat]
        exact hbase_ne
      · intro h
        exact hAb ((h ▸ app_prefix_bP name).trans (List.dropLast_prefix base))

theorem rFold_pres (name : String) {base : Path}
    (hAb : ¬ APP_DIR <+: base) (hb1 : 1 ≤ base.length) :
    ∀ (items : List String) (a : Nat × St),
      (∀ item ∈ items, ¬ APP_DIR <+: (base ++ [item])) →
      (∀ q, APP_DIR <+: q →
        fsGet ((items.foldl (rStep (REPO_DIR ++ ["backups", name]) base) a)).2.fs q
        = fsGet a.2.fs q)
      ∧ listdirFS
          ((items.foldl (rStep (REPO_DIR ++ ["backups", name]) base) a)).2.fs
          (REPO_DIR ++ ["backups", name])
        = listdirFS a.2.fs (REPO_DIR ++ ["backups", name]) := by
  intro items
  induction items with
  | nil => intro a _; exact ⟨fun q _ => rfl, rfl⟩
  | cons it rest ih =>
    intro a hit
    rw [List.foldl_cons]
    have hstep := rStep_pres name it hAb hb1 (hit it (List.mem_cons_self _ _)) a
    have hrest := ih (rStep (REPO_DIR ++ ["backups", name]) base a it)
      (fun x hx => hit x (List.mem_cons_of_mem _ hx))
    exact ⟨fun q hq => (hrest.1 q hq).trans (hstep.1 q hq),
      hrest.2.trans hstep.2⟩

end IConfig

namespace IConfig

theorem restoreOnePath_pres (name : String) (p : Path) (acc : Nat × St)
    (hH : HOME_DIR <+: expanduser p) (hA : ¬ APP_DIR <+: expanduser p)
    (hN : expanduser p ≠ HOME_DIR)
    (hitem : ∀ item ∈ listdirFS acc.2.fs (REPO_DIR ++ ["backups", name]),
      ¬ APP_DIR <+: ((expanduser p).dropLast ++ [item])) :
    (∀ q, APP_DIR <+: q →
      fsGet (restoreOnePath (REPO_DIR ++ ["backups", name]) acc p).2.fs q
      = fsGet acc.2.fs q)
    ∧ listdirFS (restoreOnePath (REPO_DIR ++ ["backups", name]) acc p).2.fs
        (REPO_DIR ++ ["backups", name])
      = listdirFS acc.2.fs (REPO_DIR ++ ["backups", name]) := by
  have h2 : 2 ≤ (expanduser p).length := home_len2 hH hN
  have hb1 : 1 ≤ (expanduser p).dropLast.length := by
    rw [List.length_dropLast]
    omega
  have hAb : ¬ APP_DIR <+: (expanduser p).dropLast :=
    fun h => hA (h.trans (List.dropLast_prefix _))
  have hmkget : ∀ q, APP_DIR <+: q →
      fsGet (makedirs acc.2.fs (expanduser p).dropLast) q
      = fsGet acc.2.fs q := by
    intro q hq
    apply fsGet_makedirs_of_ne
    intro i hi heq
    exact hAb ((heq ▸ hq).trans (List.take_prefix _ _))
  have hmkld : listdirFS (makedirs acc.2.fs (expanduser p).dropLast)
      (REPO_DIR ++ ["backups", name])
      = listdirFS acc.2.fs (REPO_DIR ++ ["backups", name]) := by
    apply listdirFS_makedirs
    intro i hi h
    apply hAb
    exact ((h ▸ app_prefix_bP name).trans (List.dropLast_prefix _)).trans
      (List.take_prefix _ _)
  rw [restoreOnePath_eq]
  by_cases hbdir : isDirFS (makedirs acc.2.fs (expanduser p).dropLast)
      (REPO_DIR ++ ["backups", name]) = true
  · rw [if_pos hbdir]
    have hfold := rFold_pres name hAb hb1
      (listdirFS (makedirs acc.2.fs (expanduser p).dropLast)
        (REPO_DIR ++ ["backups", name]))
      (acc.1, { acc.2 with fs := makedirs acc.2.fs (expanduser p).dropLast })
      (by
        intro item hitm
        rw [hmkld] at hitm
        exact hitem item hitm)
    constructor
    · intro q hq
      rw [hfold.1 q hq]
      exact hmkget q hq
    · rw [hfold.2]
      exact hmkld
  · rw [if_neg hbdir]
    have hexp_ne : ∀ q, APP_DIR <+: q → expanduser p ≠ q :=
      fun q hq h => hA (h ▸ hq)
    have hexp1_ne : ∀ q, APP_DIR <+: q →
        expanduser p ++ [lastComponent (REPO_DIR ++ ["backups", name])] ≠ q := by
      intro q hq h
      have happ : APP_DIR <+: expanduser p
          ++ [lastComponent (REPO_DIR ++ ["backups", name])] := h ▸ hq
      exact hA (prefix_append_left happ (by
        have : APP_DIR.length = 2 := rfl
        omega))
    constructor
    · intro q hq
      show fsGet (copy2 _ _ _) q = _
      simp only [copy2]
      by_cases hdd : isDirFS (makedirs acc.2.fs (expanduser p).dropLast)
          (expanduser p) = true
      · rw [if_pos hdd, fsGet_fsSet, if_neg (hexp1_ne q hq)]
        exact hmkget q hq
      · rw [if_neg hdd, fsGet_fsSet, if_neg (hexp_ne q hq)]
        exact hmkget q hq
    · show listdirFS (copy2 _ _ _) _ = _
      rw [listdirFS_copy2]
      · exact hmkld
      · rw [List.dropLast_concat]
        intro h
        exact hA (h ▸ app_prefix_bP name)
      · intro h
        exact hAb (h ▸ app_prefix_bP name)

theorem restoreFold_pres (name : String) :
    ∀ (l : List Path) (acc : Nat × St),
      (∀ p ∈ l, HOME_DIR <+: expanduser p ∧ ¬ APP_DIR <+: expanduser p
        ∧ expanduser p ≠ HOME_DIR) →
      (∀ p ∈ l, ∀ item ∈ listdirFS acc.2.fs (REPO_DIR ++ ["backups", name]),
        ¬ APP_DIR <+: ((expanduser p).dropLast ++ [item])) →
      ∀ q, APP_DIR <+: q →
        fsGet ((l.foldl (restoreOnePath (REPO_DIR ++ ["backups", name]))
          acc)).2.fs q
        = fsGet acc.2.fs q := by
  intro l
  induction l with
  | nil => intro acc _ _ q _; rfl
  | cons r rest ih =>
    intro acc hpaths hitems q hq
    obtain ⟨hHr, hAr, hNr⟩ := hpaths r (List.mem_cons_self _ _)
    have hstep := restoreOnePath_pres name r acc hHr hAr hNr
      (hitems r (List.mem_cons_self _ _))
    rw [List.foldl_cons]
    rw [ih (restoreOnePath (REPO_DIR ++ ["backups", name]) acc r)
      (fun x hx => hpaths x (List.mem_cons_of_mem _ hx))
      (by
        intro x hx item hitm
        rw [hstep.2] at hitm
        exact hitems x (List.mem_cons_of_mem _ hx) item hitm) q hq]
    exact hstep.1 q hq

end IConfig

namespace IConfig

theorem emitLog_fs (st : St) (m : String) : (emitLog st m).fs = st.fs := rfl

/-- C6: restoring a utility produces, under the timestamped restore_backups
directory, a safety copy of every currently existing destination path whose
relative location mirrors the destination's path relative to the home
directory and whose entire subtree equals the pre-restore destination
content, and the copy is still intact when restore_utility returns. -/
theorem c6_restore_safety_backup (env : Env) (name : String)
    (destPaths : List Path) (s : St)
    (hb : pathExists s.fs (REPO_DIR ++ ["backups", name]) = true)
    (hfresh : ∀ e ∈ s.fs, ¬ restoreBackupDir env name <+: e.1)
    (hpaths : ∀ p ∈ destPaths, HOME_DIR <+: expanduser p
      ∧ ¬ APP_DIR <+: expanduser p ∧ expanduser p ≠ HOME_DIR)
    (hnest : List.Pairwise (fun a b => ¬ expanduser a <+: expanduser b
      ∧ ¬ expanduser b <+: expanduser a) destPaths)
    (hfile : ∀ p ∈ destPaths, isDirFS s.fs (expanduser p) = false →
      ∀ suf, suf ≠ [] → fsGet s.fs (expanduser p ++ suf) = none)
    (hitems : ∀ p ∈ destPaths,
      ∀ item ∈ listdirFS s.fs (REPO_DIR ++ ["backups", name]),
        ¬ APP_DIR <+: ((expanduser p).dropLast ++ [item])) :
    ∀ p ∈ destPaths, pathExists s.fs (expanduser p) = true →
      ∀ suf, fsGet (restoreUtility env name destPaths s).2.fs
          (restoreBackupDir env name ++ relHome (expanduser p) ++ suf)
        = fsGet s.fs (expanduser p ++ suf) := by
  intro p hp hex suf
  obtain ⟨hHp, hAp, hNp⟩ := hpaths p hp
  have h2p : 2 ≤ (expanduser p).length := home_len2 hHp hNp
  have step1 : (restoreUtility env name destPaths s).2.fs
      = (destPaths.foldl (restoreOnePath (REPO_DIR ++ ["backups", name]))
          (0, emitLog (emitLog (destPaths.foldl (cbStep env name)
              { emitLog s ("Restoring " ++ name) with
                fs := makedirs s.fs (restoreBackupDir env name) })
              ("Created backup for " ++ name))
            ("Created safety backup at: "
              ++ pathStr (restoreBackupDir env name)))).2.fs := by
    simp only [restoreUtility]
    rw [if_neg (not_not_intro (show pathExists
      (emitLog s ("Restoring " ++ name)).fs
      (REPO_DIR ++ ["backups", name]) = true from hb))]
    rw [createBackup_eq]
    split <;> rfl
  rw [step1]
  -- names for the phase-1 initial state and its facts
  have hB0 : ∀ x ∈ destPaths, ∀ suf2,
      fsGet (makedirs s.fs (restoreBackupDir env name))
        (restoreBackupDir env name ++ relHome (expanduser x) ++ suf2)
      = none := by
    intro x hx suf2
    obtain ⟨hHx, hAx, hNx⟩ := hpaths x hx
    have hrl : 1 ≤ (relHome (expanduser x)).length :=
      List.length_pos.mpr (rel_ne_nil hHx hNx)
    rw [fsGet_makedirs_of_ne]
    · apply fsGet_none_of_keys
      intro e he hk
      apply hfresh e he
      rw [hk]
      exact ⟨relHome (expanduser x) ++ suf2, (List.append_assoc _ _ _).symm⟩
    · intro i hi heq
      have hlen := congrArg List.length heq
      simp only [List.length_append, List.length_take] at hlen
      omega
  have hfile0 : ∀ x ∈ destPaths,
      isDirFS (makedirs s.fs (restoreBackupDir env name))
        (expanduser x) = false →
      ∀ suf2, suf2 ≠ [] →
        fsGet (makedirs s.fs (restoreBackupDir env name))
          (expanduser x ++ suf2) = none := by
    intro x hx hdx suf2 hs2
    obtain ⟨hHx, hAx, hNx⟩ := hpaths x hx
    have h2x : 2 ≤ (expanduser x).length := home_len2 hHx hNx
    rw [fsGet_makedirs_of_ne _ _ _
      (safe_mk_short (safeQ_of env name suf2 h2x hAx))]
    apply hfile x hx _ suf2 hs2
    rw [← isDirFS_congr (fsGet_makedirs_of_ne s.fs _ _
      (safe_mk_short (safeQ_single env name h2x hAx)))]
    exact hdx
  have hex0 : pathExists (makedirs s.fs (restoreBackupDir env name))
      (expanduser p) = true := by
    rw [pathExists_congr (fsGet_makedirs_of_ne s.fs _ _
      (safe_mk_short (safeQ_single env name h2p hAp)))]
    exact hex
  have hld : listdirFS (makedirs s.fs (restoreBackupDir env name))
      (REPO_DIR ++ ["backups", name])
      = listdirFS s.fs (REPO_DIR ++ ["backups", name]) := by
    apply listdirFS_makedirs
    intro i hi h
    refine absurd h (ne_bP_of_prefix_Bw env name [] ?_)
    rw [List.append_nil]
    exact (List.dropLast_prefix _).trans (List.take_prefix _ _)
  have happq : APP_DIR <+: (restoreBackupDir env name
      ++ relHome (expanduser p) ++ suf) :=
    (app_prefix_B env name).trans
      ((List.prefix_append _ _).trans (List.prefix_append _ _))
  have hphase1 := cbFold_subtree env name destPaths
    { emitLog s ("Restoring " ++ name) with
      fs := makedirs s.fs (restoreBackupDir env name) }
    hpaths hnest hB0 hfile0 p hp hex0 suf
  have hphase2 := restoreFold_pres name destPaths
    (0, emitLog (emitLog (destPaths.foldl (cbStep env name)
        { emitLog s ("Restoring " ++ name) with
          fs := makedirs s.fs (restoreBackupDir env name) })
        ("Created backup for " ++ name))
      ("Created safety backup at: " ++ pathStr (restoreBackupDir env name)))
    hpaths
    (by
      intro x hx item hitm
      have hld2 : listdirFS (emitLog (emitLog (destPaths.foldl (cbStep env name)
          { emitLog s ("Restoring " ++ name) with
            fs := makedirs s.fs (restoreBackupDir env name) })
          ("Created backup for " ++ name))
          ("Created safety backup at: "
            ++ pathStr (restoreBackupDir env name))).fs
          (REPO_DIR ++ ["backups", name])
          = listdirFS s.fs (REPO_DIR ++ ["backups", name]) := by
        show listdirFS (destPaths.foldl (cbStep env name)
          { emitLog s ("Restoring " ++ name) with
            fs := makedirs s.fs (restoreBackupDir env name) }).fs
          (REPO_DIR ++ ["backups", name]) = _
        rw [cbFold_listdir]
        exact hld
      rw [hld2] at hitm
      exact hitems x hx item hitm)
    _ happq
  rw [hphase2]
  have hphase1fs : fsGet (emitLog (emitLog (destPaths.foldl (cbStep env name)
      { emitLog s ("Restoring " ++ name) with
        fs := makedirs s.fs (restoreBackupDir env name) })
      ("Created backup for " ++ name))
      ("Created safety backup at: "
        ++ pathStr (restoreBackupDir env name))).fs
      (restoreBackupDir env name ++ relHome (expanduser p) ++ suf)
      = fsGet (makedirs s.fs (restoreBackupDir env name))
        (expanduser p ++ suf) := hphase1
  rw [hphase1fs]
  exact fsGet_makedirs_of_ne _ _ _
    (safe_mk_short (safeQ_of env name suf h2p hAp))

end IConfig

namespace IConfig

def c6fs : FS :=
  [(REPO_DIR ++ ["backups", "git"], Node.dir),
   (REPO_DIR ++ ["backups", "git"] ++ ["cfg"], Node.file "X"),
   (["HOME", "cfgdir"], Node.dir),
   (["HOME", "cfgdir", "a"], Node.file "Y")]

def c6s : St := ⟨c6fs, []⟩

theorem c6_restore_safety_backup_witness :
    pathExists c6s.fs (REPO_DIR ++ ["backups", "git"]) = true
    ∧ fsGet (restoreUtility env0 "git" [["~", "cfgdir"]] c6s).2.fs
        (restoreBackupDir env0 "git"
          ++ relHome (expanduser ["~", "cfgdir"]) ++ ["a"])
      = fsGet c6s.fs (expanduser ["~", "cfgdir"] ++ ["a"]) :=
  ⟨by decide,
   c6_restore_safety_backup env0 "git" [["~", "cfgdir"]] c6s
     (by decide) (by decide) (by decide) (List.pairwise_singleton _ _)
     (by
       intro p hp hdx
       rw [List.mem_singleton] at hp
       subst hp
       exact absurd hdx (by decide))
     (by decide)
     ["~", "cfgdir"] (List.mem_singleton.mpr rfl) (by decide) ["a"]⟩

end IConfig
